import Mathlib

/-!
Verification development for the flytax-api payroll extraction core
(app/main.py).  The Python core is shallowly embedded: numbers are modelled
as rationals, Python values as the inductive `PVal`, fallible code as
`Except`/`Option`, and the regular expressions actually used by the code as
a small token-list matcher with Python `re` backtracking priority.
-/

set_option maxRecDepth 16000

namespace Flytax

/-- Characters matched by Python regex `\s` and stripped by `str.strip()`
(ASCII whitespace plus the no-break space, the only ones this code meets). -/
def isPyWs (c : Char) : Bool :=
  c == ' ' || c == '\t' || c == '\n' || c == '\r' || c == '\x0b' ||
  c == '\x0c' || c == '\u00A0'

/-- The list `[n, n-1, ..., lo]` (empty when `n < lo`); used to model greedy
bounded repetition, which tries the longest repetition first. -/
def descRange (lo n : ℕ) : List ℕ := (List.range' lo (n + 1 - lo)).reverse

/-- Value of a list of decimal digit characters, most significant first. -/
def digitsToNat (l : List Char) : ℕ :=
  l.foldl (fun a c => 10 * a + (c.toNat - 48)) 0

/-- The decimal digit character for `n < 10`. -/
def digitChar (n : ℕ) : Char := Char.ofNat (48 + n)

/-- Decimal digits of `n`, most significant first (fuel-driven so that it
reduces definitionally). -/
def natDigitsAux : ℕ → ℕ → List Char
  | 0, _ => []
  | f + 1, n =>
    if n < 10 then [digitChar n]
    else natDigitsAux f (n / 10) ++ [digitChar (n % 10)]

/-- Decimal digit string of a natural number. -/
def natDigits (n : ℕ) : List Char := natDigitsAux (n + 1) n

/-- Case-insensitive-free prefix test on character lists. -/
def leadsWith : List Char → List Char → Bool
  | [], _ => true
  | _ :: _, [] => false
  | a :: as, b :: bs => a == b && leadsWith as bs

/-- Substring test on character lists, modelling the Python `in` operator
on strings. -/
def substrB (needle : List Char) : List Char → Bool
  | [] => needle.isEmpty
  | c :: t => leadsWith needle (c :: t) || substrB needle t

/-- Lower-case a character list with the ASCII-only `Char.toLower`,
modelling `str.lower()` on the ASCII label strings this code uses. -/
def lowerL (l : List Char) : List Char := l.map Char.toLower

/-- Upper-case a character list, modelling `str.upper()`. -/
def upperL (l : List Char) : List Char := l.map Char.toUpper

/-! ## `str_to_float` (main.py lines 57-64)

Python:
```
def str_to_float(s):
    if s is None: return None
    s = s.strip().replace("\u00A0", " ").replace(" ", "")
    s = s.replace(",", ".")
    try:
        return float(re.sub(r"[^\d\.]", "", s))
    except:
        return None
```
The chain of strip / replace / regex-delete acts independently on each
character: a comma becomes a period, digits and periods survive, every
other character is deleted.  `float` then accepts the residue exactly when
it contains at least one digit and at most one period. -/

/-- Per-character effect of the cleaning chain in `str_to_float`. -/
def cleanChar (c : Char) : Option Char :=
  if c = ',' then some '.'
  else if c.isDigit then some c
  else if c = '.' then some c
  else none

/-- `float()` applied to a string of digits and periods: defined when there
is at least one digit and at most one period. -/
def parseClean (l : List Char) : Option ℚ :=
  if l.count '.' = 0 then
    if l = [] then none else some (digitsToNat l : ℚ)
  else if l.count '.' = 1 then
    if l.takeWhile (fun c => c ≠ '.') = [] ∧ ((l.dropWhile (fun c => c ≠ '.')).tail) = []
    then none
    else some ((digitsToNat (l.takeWhile (fun c => c ≠ '.')) : ℚ) +
      (digitsToNat ((l.dropWhile (fun c => c ≠ '.')).tail) : ℚ) /
        10 ^ ((l.dropWhile (fun c => c ≠ '.')).tail).length)
  else none

/-- `str_to_float` from main.py; `none` input models Python `None`. -/
def str_to_float : Option String → Option ℚ
  | none => none
  | some s => parseClean (s.data.filterMap cleanChar)

/-! ## Python `float()` on arbitrary cleaned strings (main.py line 110)

Line 110 runs `float(str(parsed[k]).replace(" ", "").replace(",", "."))`.
Unlike `str_to_float` it does not delete stray characters, so we model the
full finite-decimal literal grammar of `float`: optional surrounding
whitespace, optional sign, digits with at most one period, and an optional
decimal exponent. -/

/-- Split a leading run of digits. -/
def splitDigits (l : List Char) : List Char × List Char :=
  (l.takeWhile Char.isDigit, l.dropWhile Char.isDigit)

/-- Strip whitespace from both ends. -/
def stripEnds (l : List Char) : List Char :=
  ((l.dropWhile isPyWs).reverse.dropWhile isPyWs).reverse

/-- Unsigned part of a `float()` literal: mantissa and optional exponent. -/
def pyFloatCore (l : List Char) : Option ℚ :=
  let p := splitDigits l
  let q : List Char × List Char :=
    match p.2 with
    | '.' :: r => splitDigits r
    | _ => ([], p.2)
  if p.1 = [] ∧ q.1 = [] then none
  else
    let base : ℚ := (digitsToNat p.1 : ℚ) + (digitsToNat q.1 : ℚ) / 10 ^ q.1.length
    match q.2 with
    | [] => some base
    | c :: r3 =>
      if c = 'e' ∨ c = 'E' then
        let sr : Bool × List Char :=
          match r3 with
          | '+' :: r => (false, r)
          | '-' :: r => (true, r)
          | r => (false, r)
        let e := splitDigits sr.2
        if e.1 = [] ∨ e.2 ≠ [] then none
        else if sr.1 then some (base / 10 ^ digitsToNat e.1)
        else some (base * 10 ^ digitsToNat e.1)
      else none

/-- Python `float()` on a character list (finite decimal literals; the
`inf`/`nan` spellings, irrelevant here, are not modelled). -/
def pyFloat (l0 : List Char) : Option ℚ :=
  match stripEnds l0 with
  | '+' :: r => pyFloatCore r
  | '-' :: r => (pyFloatCore r).map (fun q => -q)
  | r => pyFloatCore r

/-! ## Decimal rendering (modelled from the spec)

Modelled from the spec: the repository never turns a parsed number back
into text, but the spec speaks of "the normalized textual form of a
number", so rendering is modelled as the plain decimal string of the
rational value. -/

/-- Smallest `k ≤ d` with `d ∣ 10 ^ k`, or `0` when none exists below the
bound (for denominators of parsed decimals one always exists). -/
def decExp (d : ℕ) : ℕ :=
  ((List.range (d + 1)).find? (fun k => 10 ^ k % d == 0)).getD 0

/-- Plain decimal rendering of a nonnegative rational whose denominator
divides a power of ten. -/
def renderDec (v : ℚ) : String :=
  let k := decExp v.den
  let N := v.num.toNat * 10 ^ k / v.den
  if k = 0 then String.mk (natDigits N)
  else
    let b := natDigits (N % 10 ^ k)
    String.mk (natDigits (N / 10 ^ k) ++ '.' :: (List.replicate (k - b.length) '0' ++ b))

/-- Decimal rendering with a sign, used for serializing numeric values. -/
def renderQ (v : ℚ) : String :=
  if v < 0 then "-" ++ renderDec (-v) else renderDec v

/-! ## Python values

The parser output handed to `postprocess` is an arbitrary JSON-like Python
value: `None`, a number, a string, or a dict with string keys. -/

/-- JSON-like Python values (the shapes `postprocess` inspects). -/
inductive PVal where
  | none : PVal
  | num (q : ℚ) : PVal
  | str (s : String) : PVal
  | dict (entries : List (String × PVal)) : PVal

/-- Python truthiness of a `PVal`. -/
def pyTruthy : PVal → Bool
  | PVal.none => false
  | PVal.num q => q != 0
  | PVal.str s => s != ""
  | PVal.dict d => !d.isEmpty

/-- Whether a value is a Python `str`. -/
def isStrB : PVal → Bool
  | PVal.str _ => true
  | _ => false

/-- JSON string quoting with the two escapes relevant to these values. -/
def jsonQuote (s : String) : String :=
  "\"" ++ String.mk (s.data.flatMap (fun c =>
    if c = '"' ∨ c = '\\' then ['\\', c] else [c])) ++ "\""

mutual

/-- `json.dumps` on a `PVal`, used by main.py line 104 as the last-resort
raw text of a structured document. -/
def jsonDumps : PVal → String
  | PVal.none => "null"
  | PVal.num q => renderQ q
  | PVal.str s => jsonQuote s
  | PVal.dict es => "\x7b" ++ jsonEntries es ++ "\x7d"

/-- Comma-separated rendering of dict entries. -/
def jsonEntries : List (String × PVal) → String
  | [] => ""
  | [(k, v)] => jsonQuote k ++ ": " ++ jsonDumps v
  | (k, v) :: e :: rest => jsonQuote k ++ ": " ++ jsonDumps v ++ ", " ++ jsonEntries (e :: rest)

end

/-- Python `str()` of a value.  Only the string case matters to the claims:
for a dict, `str` and `json.dumps` differ in quoting, and either way line
110 can never parse the result as a float because it starts with a brace. -/
def pyStr : PVal → String
  | PVal.none => "None"
  | PVal.str s => s
  | PVal.num q => renderQ q
  | PVal.dict es => jsonDumps (PVal.dict es)

/-- `str_to_float` applied to a raw Python value, as in the line-item loop:
`s.strip()` raises `AttributeError` unless the value is `None` or a `str`. -/
def str_to_float_py : PVal → Except String (Option ℚ)
  | PVal.none => Except.ok Option.none
  | PVal.str s => Except.ok (str_to_float (some s))
  | _ => Except.error "AttributeError"

/-! ## The regular expressions of main.py

`find_amount_after_label` compiles `{pat}[^0-9\n\r\-]{0,50}({amount})` with
`re.IGNORECASE` and runs `re.search`.  The label patterns actually used are
sequences of case-insensitive literal characters, the any-char dot, `\s+`,
`\s*`, an optional character, and a two-character class, so label patterns
are modelled as lists of such tokens.  Matching follows the backtracking
priority of `re`: leftmost start position first, and at each position
greedy repetition (longest first). -/

/-- Tokens of the label patterns used by main.py. -/
inductive LTok where
  | ch (c : Char) : LTok
  | anyc : LTok
  | cls (cs : List Char) : LTok
  | alt (c : Char) : LTok
  | ws1 : LTok
  | ws0 : LTok

/-- All ways a token list can match a prefix of `s`, as the list of
remaining suffixes in backtracking priority order.  `ch` is a
case-insensitive literal, `anyc` the dot, `cls` a character class, `alt c`
an optional character (`c?`), `ws1`/`ws0` are `\s+`/`\s*`. -/
def matchToks : List LTok → List Char → List (List Char)
  | [], s => [s]
  | LTok.ch _ :: _, [] => []
  | LTok.ch c :: ts, c1 :: rest =>
    if c1.toLower = c.toLower then matchToks ts rest else []
  | LTok.anyc :: _, [] => []
  | LTok.anyc :: ts, c1 :: rest =>
    if c1 = '\n' then [] else matchToks ts rest
  | LTok.cls _ :: _, [] => []
  | LTok.cls cs :: ts, c1 :: rest =>
    if cs.contains c1 then matchToks ts rest else []
  | LTok.alt _ :: ts, [] => matchToks ts []
  | LTok.alt c :: ts, c1 :: rest =>
    (if c1.toLower = c.toLower then matchToks ts rest else []) ++
      matchToks ts (c1 :: rest)
  | LTok.ws1 :: ts, s =>
    (descRange 1 (s.takeWhile isPyWs).length).flatMap (fun k => matchToks ts (s.drop k))
  | LTok.ws0 :: ts, s =>
    (descRange 0 (s.takeWhile isPyWs).length).flatMap (fun k => matchToks ts (s.drop k))

/-- Separators accepted inside the amount grammar: `[  \.,]`. -/
def isSep (c : Char) : Bool := c == ' ' || c == '\u00A0' || c == '.' || c == ','

/-- Decimal-point characters of the amount grammar: `[.,]`. -/
def isDec (c : Char) : Bool := c == '.' || c == ','

/-- Greedy matches of `(?:[  \.,]\d{3})*`: pairs of matched prefix and
rest, longest (most groups) first. -/
def starGroups : ℕ → List Char → List (List Char × List Char)
  | 0, s => [([], s)]
  | f + 1, s =>
    (match s with
     | c1 :: d1 :: d2 :: d3 :: rest =>
       if isSep c1 && d1.isDigit && d2.isDigit && d3.isDigit then
         (starGroups f rest).map (fun p => (c1 :: d1 :: d2 :: d3 :: p.1, p.2))
       else []
     | _ => []) ++ [([], s)]

/-- Greedy matches of `(?:[.,]\d{2})?`, the optional two-digit fraction. -/
def decTail (s : List Char) : List (List Char × List Char) :=
  (match s with
   | c1 :: d1 :: d2 :: rest =>
     if isDec c1 && d1.isDigit && d2.isDigit then [([c1, d1, d2], rest)] else []
   | _ => []) ++ [([], s)]

/-- `\d{k}` at the head of `s` for an exact `k`. -/
def takeDigits (k : ℕ) (s : List Char) : Option (List Char × List Char) :=
  if k ≤ s.length ∧ (s.take k).all Char.isDigit = true then some (s.take k, s.drop k)
  else none

/-- All matches of the amount regex
`\d{1,3}(?:[  \.,]\d{3})*(?:[.,]\d{2})?` at the head of `s`, in
backtracking priority order (greedy throughout). -/
def amountMatches (s : List Char) : List (List Char × List Char) :=
  ([3, 2, 1].filterMap (fun k => takeDigits k s)).flatMap (fun p =>
    (starGroups p.2.length p.2).flatMap (fun q =>
      (decTail q.2).map (fun t => (p.1 ++ q.1 ++ t.1, t.2))))

/-- Characters admitted in the gap between label and amount:
`[^0-9\n\r\-]`. -/
def isGapChar (c : Char) : Bool := !(c.isDigit || c == '\n' || c == '\r' || c == '-')

/-- Matches of `[^0-9\n\r\-]{0,50}({amount})` at the head of `s`; each
entry is the captured amount and the rest, greedy gap first. -/
def gapThenAmount (s : List Char) : List (List Char × List Char) :=
  (descRange 0 (min 50 (s.takeWhile isGapChar).length)).flatMap
    (fun k => amountMatches (s.drop k))

/-- Attempt the whole pattern at the current position; yields the captured
amount of the highest-priority match. -/
def tryAt (pat : List LTok) (s : List Char) : Option (List Char) :=
  (((matchToks pat s).flatMap gapThenAmount).head?).map Prod.fst

/-- `re.search`: try every start position left to right. -/
def searchFrom (pat : List LTok) : List Char → Option (List Char)
  | [] => tryAt pat []
  | c :: rest =>
    match tryAt pat (c :: rest) with
    | some a => some a
    | Option.none => searchFrom pat rest

/-- The pattern loop of `find_amount_after_label`: the first pattern with a
regex match returns `str_to_float` of its captured amount (even when that
normalization fails). -/
def faalGo : List (List LTok) → List Char → Option ℚ
  | [], _ => Option.none
  | pat :: ps, s =>
    match searchFrom pat s with
    | some a => str_to_float (some (String.mk a))
    | Option.none => faalGo ps s

/-- `find_amount_after_label` from main.py (lines 67-81). -/
def find_amount_after_label (text : String) (pats : List (List LTok)) : Option ℚ :=
  if text = "" then Option.none else faalGo pats text.data

/-! ## The label patterns of `postprocess` -/

/-- A sequence of case-insensitive literal characters. -/
def litToks (l : List Char) : List LTok := l.map LTok.ch

/-- A label string used verbatim as a regex pattern: every character is
literal except `.`, which is the any-char metacharacter. -/
def labToks (lab : String) : List LTok :=
  lab.data.map (fun c => if c = '.' then LTok.anyc else LTok.ch c)

/-- A label string matched fully literally (the `lab.replace(".", "\\.")`
variant). -/
def labelLit (lab : String) : List LTok := litToks lab.data

/-- `[r"Montant\s+imposable", r"Montant\s+imposable\s*[:\-]"]`. -/
def montantPats : List (List LTok) :=
  [ litToks "Montant".data ++ [LTok.ws1] ++ litToks "imposable".data,
    litToks "Montant".data ++ [LTok.ws1] ++ litToks "imposable".data ++
      [LTok.ws0, LTok.cls [':', '-']] ]

/-- `[r"Cumul\s+imposable", r"Cumul\s+imposable\s*[:\-]"]`. -/
def cumulPats : List (List LTok) :=
  [ litToks "Cumul".data ++ [LTok.ws1] ++ litToks "imposable".data,
    litToks "Cumul".data ++ [LTok.ws1] ++ litToks "imposable".data ++
      [LTok.ws0, LTok.cls [':', '-']] ]

/-- `[r"I\.?DECOUCHERS\s*F\.?PRO", r"DECOUCHERS F\.?PRO", r"Découchers F PRO"]`. -/
def decouchPats : List (List LTok) :=
  [ [LTok.ch 'I', LTok.alt '.'] ++ litToks "DECOUCHERS".data ++
      [LTok.ws0, LTok.ch 'F', LTok.alt '.'] ++ litToks "PRO".data,
    litToks "DECOUCHERS F".data ++ [LTok.alt '.'] ++ litToks "PRO".data,
    litToks "Découchers F PRO".data ]

/-- The fixed catalogue of employment-expense labels (main.py lines
118-120 and 146-148). -/
def fraisLabels : List String :=
  ["IND.REPAS", "INDEMNITE REPAS", "IR.FIN ANNEE DOUBL", "IND. TRANSPORT",
   "IND. TRANSPORT EXO", "FRAIS REELS TRANSP", "R. FRAIS DE TRANSPORT",
   "IR EXONEREES", "IR NON EXONEREES"]

/-- The two patterns tried for one catalogue label in the tier-4 expense
loop: `[lab, lab.replace(".", "\\.")]`. -/
def labPats (lab : String) : List (List LTok) := [labToks lab, labelLit lab]

/-- Case-insensitive substring test, `lab.lower() in key.lower()`. -/
def isSubstrCI (needle hay : String) : Bool :=
  substrB (lowerL needle.data) (lowerL hay.data)

/-! ## `postprocess` (main.py lines 84-170) -/

/-- The four numeric fields while `postprocess` is filling them in. -/
structure FState where
  mi : Option ℚ
  ci : Option ℚ
  fe : ℚ
  df : Option ℚ

/-- The returned record.  `raw_text` is kept as a Python value: line 101
stores whatever truthy value sat under the `raw_text` key. -/
structure Result where
  montant_imposable : Option ℚ
  cumul_imposable : Option ℚ
  frais_emploi : ℚ
  decouchers_fpro : Option ℚ
  raw_text : PVal

/-- Dict lookup (Python dict keys are unique; lookup takes the first
matching entry). -/
def lookupV (entries : List (String × PVal)) (k : String) : Option PVal :=
  List.lookup k entries

/-- Lines 100-104: the value stored under `raw_text` in the result. -/
def rawTextInit (entries : List (String × PVal)) : PVal :=
  match lookupV entries "raw_text" with
  | some v => if pyTruthy v then v else PVal.str ""
  | Option.none =>
    let t := (lookupV entries "text").getD (PVal.str "")
    if pyTruthy t then t else
    let r := (lookupV entries "raw").getD (PVal.str "")
    if pyTruthy r then r else PVal.str (jsonDumps (PVal.dict entries))

/-- The cleaning of line 110: drop spaces, then comma to period. -/
def directClean (s : String) : List Char :=
  (s.data.filter (fun c => c ≠ ' ')).map (fun c => if c = ',' then '.' else c)

/-- Lines 107-112 for one key: `float(str(parsed[k]).replace(...))` when
the key is present and not `None`/`""`; a parse failure leaves the field
untouched (`except: pass`). -/
def directRead (entries : List (String × PVal)) (k : String) : Option ℚ :=
  match lookupV entries k with
  | Option.none => Option.none
  | some PVal.none => Option.none
  | some (PVal.str s) => if s = "" then Option.none else pyFloat (directClean s)
  | some v => pyFloat (directClean (pyStr v))

/-- The direct-read tier over the four target keys. -/
def directPhase (entries : List (String × PVal)) : FState :=
  { mi := directRead entries "montant_imposable",
    ci := directRead entries "cumul_imposable",
    fe := (directRead entries "frais_emploi").getD 0,
    df := directRead entries "decouchers_fpro" }

/-- Line 115: `parsed.get("lines") or parsed.get("items") or
parsed.get("rows") or None`. -/
def linesOf (entries : List (String × PVal)) : PVal :=
  let a := (lookupV entries "lines").getD PVal.none
  if pyTruthy a then a else
  let b := (lookupV entries "items").getD PVal.none
  if pyTruthy b then b else
  let c := (lookupV entries "rows").getD PVal.none
  if pyTruthy c then c else PVal.none

/-- Python truthiness of an optional number (`None` and `0.0` are falsy). -/
def truthyOpt : Option ℚ → Bool
  | Option.none => false
  | some q => q != 0

/-- Lines 123-126: the inner label loop of the line-item scan.  For each
catalogue label contained in the key, `str_to_float(val)` runs again (and
raises on non-string values); truthy results are added. -/
def fraisLoop : List String → String → PVal → ℚ → Except String ℚ
  | [], _, _, fe => Except.ok fe
  | lab :: rest, key, v, fe =>
    if isSubstrCI lab key then
      match str_to_float_py v with
      | Except.error e => Except.error e
      | Except.ok fv =>
        fraisLoop rest key v (if truthyOpt fv then fe + fv.getD 0 else fe)
    else fraisLoop rest key v fe

/-- Lines 121-129: the loop over line items. -/
def processItems : List (String × PVal) → FState → Except String FState
  | [], a => Except.ok a
  | (key, v) :: rest, a =>
    if pyTruthy v then
      match fraisLoop fraisLabels key v a.fe with
      | Except.error e => Except.error e
      | Except.ok fe1 =>
        if substrB "DECOUCH".data (upperL key.data) ∧
            substrB "F.PRO".data (upperL key.data) then
          match str_to_float_py v with
          | Except.error e => Except.error e
          | Except.ok dv =>
            processItems rest
              { a with
                fe := fe1,
                df := if truthyOpt dv then dv else a.df }
        else processItems rest { a with fe := fe1 }
    else processItems rest a

/-- Lines 114-129: run the line-item scan when the selected value is a
dict. -/
def linesPhase (entries : List (String × PVal)) (a : FState) : Except String FState :=
  match linesOf entries with
  | PVal.dict items => processItems items a
  | _ => Except.ok a

/-- `m = find_amount_after_label(...); if m: result[k] = m`. -/
def scanStep (raw : String) (pats : List (List LTok)) (cur : Option ℚ) : Option ℚ :=
  let m := find_amount_after_label raw pats
  if truthyOpt m then m else cur

/-- Lines 149-155: the tier-4 expense accumulation over the catalogue,
returning the running sum and the `found_any` flag. -/
def fraisScan : List String → String → ℚ × Bool → ℚ × Bool
  | [], _, acc => acc
  | lab :: rest, raw, acc =>
    let v := find_amount_after_label raw (labPats lab)
    fraisScan rest raw (if truthyOpt v then (acc.1 + v.getD 0, true) else acc)

/-- Floor of a rational (explicit so that it reduces definitionally). -/
def qfloor (q : ℚ) : ℤ := Int.fdiv q.num (q.den : ℤ)

/-- Python `round(x, 2)`: round half to even at two decimals (exact on the
rational model). -/
def round2 (q : ℚ) : ℚ :=
  let x := q * 100
  let f := qfloor x
  let r := x - (f : ℚ)
  if r < 1 / 2 then (f : ℚ) / 100
  else if r > 1 / 2 then ((f : ℚ) + 1) / 100
  else (if f % 2 = 0 then (f : ℚ) else (f : ℚ) + 1) / 100

/-- One tier-4 step for a nullable field: skipped when the current value is
truthy; calling the scanner on a non-string raw text raises `TypeError`. -/
def tier4opt (cur : Option ℚ) (pats : List (List LTok)) (rawV : PVal) :
    Except String (Option ℚ) :=
  if truthyOpt cur then Except.ok cur
  else
    match rawV with
    | PVal.str raw => Except.ok (scanStep raw pats cur)
    | _ => Except.error "TypeError"

/-- Lines 144-157: the tier-4 expense fallback, run whenever the current
total is zero; a value is written only when `found_any` is set. -/
def tier4frais (fe : ℚ) (rawV : PVal) : Except String ℚ :=
  if fe = 0 then
    match rawV with
    | PVal.str raw =>
      Except.ok (if (fraisScan fraisLabels raw (0, false)).2 then
        round2 (fraisScan fraisLabels raw (0, false)).1 else fe)
    | _ => Except.error "TypeError"
  else Except.ok fe

/-- Lines 136-162: the free-text tier over all four fields, in source
order. -/
def textPhase (a : FState) (rawV : PVal) : Except String FState :=
  match tier4opt a.mi montantPats rawV with
  | Except.error e => Except.error e
  | Except.ok mi1 =>
    match tier4opt a.ci cumulPats rawV with
    | Except.error e => Except.error e
    | Except.ok ci1 =>
      match tier4frais a.fe rawV with
      | Except.error e => Except.error e
      | Except.ok fe1 =>
        match tier4opt a.df decouchPats rawV with
        | Except.error e => Except.error e
        | Except.ok df1 => Except.ok { mi := mi1, ci := ci1, fe := fe1, df := df1 }

/-- Lines 164-170: final record.  The `isinstance(result[k], str)` cleanup
is unreachable (only floats or `None` are ever assigned), and line 169 is
`float(fe or 0.0)`. -/
def mkResult (a : FState) (rawStored : PVal) : Result :=
  { montant_imposable := a.mi,
    cumul_imposable := a.ci,
    frais_emploi := if a.fe = 0 then 0 else a.fe,
    decouchers_fpro := a.df,
    raw_text := rawStored }

/-- `postprocess` from main.py (lines 84-170), with raising modelled as
`Except.error`. -/
def postprocess (parsed : PVal) : Except String Result :=
  match parsed with
  | PVal.dict entries =>
    match linesPhase entries (directPhase entries) with
    | Except.error e => Except.error e
    | Except.ok a2 =>
      match textPhase a2
          (if pyTruthy (rawTextInit entries) then rawTextInit entries else PVal.str "") with
      | Except.error e => Except.error e
      | Except.ok a3 => Except.ok (mkResult a3 (rawTextInit entries))
  | v =>
    match textPhase { mi := Option.none, ci := Option.none, fe := 0, df := Option.none }
        (PVal.str (pyStr v)) with
    | Except.error e => Except.error e
    | Except.ok a3 => Except.ok (mkResult a3 (PVal.str (pyStr v)))

/-! ## Statement-side definitions

These definitions phrase the properties the claims talk about; they are
written from the words of the claims and the spec, to be compared with the
code model above. -/

/-- Number of catalogue labels contained (case-insensitively) in a
line-item key. -/
def countFraisLabels (key : String) : ℕ :=
  (fraisLabels.filter (fun lab => isSubstrCI lab key)).length

/-- The line-item expense total described by the amended claim C6: each
line item contributes its normalized value once per catalogue label its
key contains (zero when the value does not normalize to a number). -/
def itemsFraisSum (entries : List (String × String)) : ℚ :=
  (entries.map (fun kv =>
    ((str_to_float (some kv.2)).getD 0) * (countFraisLabels kv.1 : ℚ))).sum

/-- Zero or more thousands groups: a separator followed by exactly three
digits, flattened. -/
inductive GroupsFlat : List Char → Prop
  | nil : GroupsFlat []
  | grp (c d1 d2 d3 : Char) (rest : List Char) :
      isSep c = true → d1.isDigit = true → d2.isDigit = true → d3.isDigit = true →
      GroupsFlat rest → GroupsFlat (c :: d1 :: d2 :: d3 :: rest)

/-- The optional two-digit fractional part of the amount grammar. -/
inductive FracTail : List Char → Prop
  | nil : FracTail []
  | frac (c d1 d2 : Char) : isDec c = true → d1.isDigit = true → d2.isDigit = true →
      FracTail [c, d1, d2]

/-- The amount grammar as the spec words it: one to three leading digits,
optional groups of exactly three digits behind separators, optional
two-digit fraction. -/
def specAmount (a : List Char) : Prop :=
  ∃ lead g t, a = lead ++ g ++ t ∧ 1 ≤ lead.length ∧ lead.length ≤ 3 ∧
    (∀ c ∈ lead, c.isDigit = true) ∧ GroupsFlat g ∧ FracTail t

/-- The gap condition exactly as claim C7 words it: at most 50 characters,
none a digit, newline, or carriage return. -/
def gapOKspec (g : List Char) : Prop :=
  g.length ≤ 50 ∧ ∀ c ∈ g, ¬(c.isDigit = true ∨ c = '\n' ∨ c = '\r')

/-- The gap condition the code enforces: the class `[^0-9\n\r\-]` also
excludes the hyphen. -/
def gapOKcode (g : List Char) : Prop :=
  g.length ≤ 50 ∧ ∀ c ∈ g, isGapChar c = true

/-- A stretch of text counts as an occurrence of a literal label when it
matches it case-insensitively. -/
def labLitMatches (L : String) (lab : List Char) : Prop :=
  lowerL lab = lowerL L.data

/-- Claim C7 as stated: the scanner yields a value exactly when some
occurrence of the label is followed by an admissible gap and then a
quantity of the amount grammar. -/
def C7ClaimStatement : Prop :=
  ∀ (t L : String),
    (find_amount_after_label t [labelLit L]).isSome = true ↔
    ∃ pre lab gap amt rest, t.data = pre ++ lab ++ gap ++ amt ++ rest ∧
      labLitMatches L lab ∧ gapOKspec gap ∧ specAmount amt

/-- Input shapes on which `postprocess` is exception-free: every truthy
line-item value is a string, and the selected raw text is a string. -/
def shapeOKb : PVal → Bool
  | PVal.dict entries =>
    (match linesOf entries with
     | PVal.dict items => items.all (fun kv => !pyTruthy kv.2 || isStrB kv.2)
     | _ => true) &&
    isStrB (if pyTruthy (rawTextInit entries) then rawTextInit entries else PVal.str "")
  | _ => true

/-- Tier-4 step for a nullable field, as a pure function of a string raw
text (what `tier4opt` computes when it does not raise). -/
def tier4optPure (cur : Option ℚ) (pats : List (List LTok)) (raw : String) : Option ℚ :=
  if truthyOpt cur then cur else scanStep raw pats cur

/-- Tier-4 expense fallback as a pure function of a string raw text. -/
def tier4fraisPure (fe : ℚ) (raw : String) : ℚ :=
  if fe = 0 then
    (if (fraisScan fraisLabels raw (0, false)).2 then
      round2 (fraisScan fraisLabels raw (0, false)).1 else fe)
  else fe

/-- The whole free-text tier as a pure function of a string raw text. -/
def textPure (a : FState) (raw : String) : FState :=
  { mi := tier4optPure a.mi montantPats raw,
    ci := tier4optPure a.ci cumulPats raw,
    fe := tier4fraisPure a.fe raw,
    df := tier4optPure a.df decouchPats raw }

/-- Wrap a list of string line items as Python dict entries. -/
def mapStr (entries : List (String × String)) : List (String × PVal) :=
  entries.map (fun kv => (kv.1, PVal.str kv.2))

/-! ## Lemmas about `str_to_float` -/

theorem cleanChar_of_digit {c : Char} (h : c.isDigit = true) : cleanChar c = some c := by
  have hc : c ≠ ',' := by
    rintro rfl
    exact absurd h (by decide)
  unfold cleanChar
  rw [if_neg hc, if_pos h]

theorem filterMap_clean_digits {l : List Char} (h : ∀ c ∈ l, c.isDigit = true) :
    l.filterMap cleanChar = l := by
  induction l with
  | nil => rfl
  | cons c t ih =>
    rw [List.filterMap_cons, cleanChar_of_digit (h c (by simp))]
    rw [ih (fun x hx => h x (by simp [hx]))]

theorem count_dot_digits {l : List Char} (h : ∀ c ∈ l, c.isDigit = true) :
    l.count '.' = 0 := by
  rw [List.count_eq_zero]
  intro hm
  exact absurd (h _ hm) (by decide)

theorem not_dot_of_digit {c : Char} (h : c.isDigit = true) : c ≠ '.' := by
  rintro rfl
  exact absurd h (by decide)

theorem parseClean_int {l : List Char} (h : ∀ c ∈ l, c.isDigit = true) (hne : l ≠ []) :
    parseClean l = some (digitsToNat l : ℚ) := by
  unfold parseClean
  rw [count_dot_digits h]
  simp [hne]

theorem dropWhile_append_of_all {p : Char → Bool} :
    ∀ {a l : List Char}, (∀ c ∈ a, p c = true) → (a ++ l).dropWhile p = l.dropWhile p
  | [], _, _ => rfl
  | c :: t, l, h => by
    rw [List.cons_append, List.dropWhile_cons_of_pos (h c (by simp))]
    exact dropWhile_append_of_all (fun x hx => h x (by simp [hx]))

theorem parseClean_dec {a b : List Char} (ha : ∀ c ∈ a, c.isDigit = true)
    (hb : ∀ c ∈ b, c.isDigit = true) (hane : a ≠ []) :
    parseClean (a ++ '.' :: b) =
      some ((digitsToNat a : ℚ) + (digitsToNat b : ℚ) / 10 ^ b.length) := by
  have hcount : (a ++ '.' :: b).count '.' = 1 := by
    simp [List.count_append, List.count_cons, count_dot_digits ha, count_dot_digits hb]
  have hpa : ∀ c ∈ a, (fun c => decide (c ≠ '.')) c = true := by
    intro c hc
    simpa using not_dot_of_digit (ha c hc)
  have htake : (a ++ '.' :: b).takeWhile (fun c => decide (c ≠ '.')) = a := by
    rw [List.takeWhile_append_of_pos hpa, List.takeWhile_cons_of_neg (by decide),
      List.append_nil]
  have hdrop : (a ++ '.' :: b).dropWhile (fun c => decide (c ≠ '.')) = '.' :: b := by
    rw [dropWhile_append_of_all hpa, List.dropWhile_cons_of_neg (by decide)]
  unfold parseClean
  rw [hcount]
  rw [if_neg (by norm_num), if_pos rfl, htake, hdrop]
  simp [hane]

theorem parseClean_nonneg {l : List Char} {v : ℚ} (h : parseClean l = some v) : 0 ≤ v := by
  unfold parseClean at h
  split_ifs at h
  all_goals
    rw [Option.some.injEq] at h
    subst h
    positivity

theorem str_to_float_nonneg {os : Option String} {v : ℚ} (h : str_to_float os = some v) :
    0 ≤ v := by
  cases os with
  | none => exact Option.noConfusion h
  | some s => exact parseClean_nonneg h

theorem cleanChar_space : cleanChar ' ' = none := by decide

theorem cleanChar_nbsp : cleanChar '\u00A0' = none := by decide

theorem filterMap_clean_filter_space (l : List Char) :
    (l.filter (fun c => !(c == ' ' || c == '\u00A0'))).filterMap cleanChar =
      l.filterMap cleanChar := by
  induction l with
  | nil => rfl
  | cons c t ih =>
    rw [List.filter_cons]
    by_cases hc : (c == ' ' || c == '\u00A0') = true
    · have hcc : cleanChar c = none := by
        have hc2 : c = ' ' ∨ c = '\u00A0' := by simpa using hc
        rcases hc2 with h | h
        · rw [h, cleanChar_space]
        · rw [h, cleanChar_nbsp]
      rw [if_neg (by simp [hc]), List.filterMap_cons, hcc]
      exact ih
    · rw [if_pos (by simp only [Bool.not_eq_true] at hc; simp [hc])]
      rw [List.filterMap_cons, List.filterMap_cons]
      rcases hcl : cleanChar c with _ | d
      · simp only [hcl]
        exact ih
      · simp only [hcl]
        rw [ih]

/-- Claim C3 (corrected): `str_to_float` handles space and no-break-space
thousands separators and a single comma (or period) decimal separator, maps
`None` and the empty string to no value, and never raises; but a period
used as thousands separator survives cleaning, so a string like
`"1.234.567,89"` keeps several periods and is unparseable. -/
theorem C3_amended :
    str_to_float none = none ∧
    str_to_float (some "") = none ∧
    str_to_float (some "1 234,56") = some (123456 / 100) ∧
    str_to_float (some "1.234.567,89") = none ∧
    (∀ s : String,
      str_to_float (some (String.mk (s.data.filter (fun c => !(c == ' ' || c == '\u00A0'))))) =
        str_to_float (some s)) ∧
    (∀ a b : List Char, a ≠ [] → (∀ c ∈ a, c.isDigit = true) → (∀ c ∈ b, c.isDigit = true) →
      str_to_float (some (String.mk (a ++ ',' :: b))) =
        some ((digitsToNat a : ℚ) + (digitsToNat b : ℚ) / 10 ^ b.length)) := by
  refine ⟨rfl, rfl, by with_unfolding_all rfl, by with_unfolding_all rfl, ?_, ?_⟩
  · intro s
    show parseClean _ = parseClean _
    rw [filterMap_clean_filter_space]
  · intro a b hane ha hb
    show parseClean _ = _
    have hsplit : (a ++ ',' :: b).filterMap cleanChar = a ++ '.' :: b := by
      rw [List.filterMap_append, filterMap_clean_digits ha, List.filterMap_cons]
      rw [show cleanChar ',' = some '.' from rfl, filterMap_clean_digits hb]
    rw [hsplit, parseClean_dec ha hb hane]

/-- Witness for C3: the general decimal-comma clause at a concrete input. -/
theorem C3_amended_witness :
    str_to_float (some (String.mk (['1'] ++ ',' :: ['5']))) =
      some ((digitsToNat ['1'] : ℚ) + (digitsToNat ['5'] : ℚ) / 10 ^ (['5'] : List Char).length) :=
  C3_amended.2.2.2.2.2 ['1'] ['5'] (by decide) (by decide) (by decide)

/-- Counterexample to claim C3 as stated: the period-thousands-separator
string `"1.234.567,89"` does not map to `1234567.89`; it is unparseable. -/
theorem C3_counterexample : str_to_float (some "1.234.567,89") = none := by
  with_unfolding_all rfl

/-- Claim C8: an empty structured document carrying empty raw text yields
exactly the defaulted record, without raising. -/
theorem C8_thm :
    postprocess (PVal.dict [("raw_text", PVal.str "")]) =
      Except.ok { montant_imposable := Option.none, cumul_imposable := Option.none,
                  frais_emploi := 0, decouchers_fpro := Option.none,
                  raw_text := PVal.str "" } := by
  with_unfolding_all rfl

/-- Claim C10: every value `str_to_float` yields is nonnegative; in
particular the minus sign of `"-12,50"` is stripped and the result is the
absolute value `12.5`. -/
theorem C10_thm :
    (∀ (os : Option String) (v : ℚ), str_to_float os = some v → 0 ≤ v) ∧
    str_to_float (some "-12,50") = some (25 / 2) :=
  ⟨fun _ _ h => str_to_float_nonneg h, by with_unfolding_all rfl⟩

/-- Witness for C10 at a concrete parsed value. -/
theorem C10_witness : (0 : ℚ) ≤ 25 / 2 :=
  C10_thm.1 (some "-12,50") (25 / 2) (by with_unfolding_all rfl)

/-! ## Lemmas about `postprocess` -/

theorem truthyOpt_getD_zero {o : Option ℚ} (h : truthyOpt o = false) : o.getD 0 = 0 := by
  cases o with
  | none => rfl
  | some q =>
    simp only [truthyOpt, bne_iff_ne, ne_eq, Bool.not_eq_true, decide_eq_false_iff_not,
      Decidable.not_not] at h
    simpa using h

theorem tier4opt_str (cur : Option ℚ) (pats : List (List LTok)) (raw : String) :
    tier4opt cur pats (PVal.str raw) = Except.ok (tier4optPure cur pats raw) := by
  unfold tier4opt tier4optPure
  split_ifs <;> rfl

theorem tier4frais_str (fe : ℚ) (raw : String) :
    tier4frais fe (PVal.str raw) = Except.ok (tier4fraisPure fe raw) := by
  by_cases h0 : fe = 0
  · simp only [tier4frais, tier4fraisPure, if_pos h0]
  · simp only [tier4frais, tier4fraisPure, if_neg h0]

theorem textPhase_str (a : FState) (raw : String) :
    textPhase a (PVal.str raw) = Except.ok (textPure a raw) := by
  unfold textPhase
  rw [tier4opt_str, tier4opt_str, tier4frais_str, tier4opt_str]
  rfl

theorem find_amount_empty (pats : List (List LTok)) :
    find_amount_after_label "" pats = Option.none := rfl

theorem scanStep_empty (pats : List (List LTok)) (cur : Option ℚ) :
    scanStep "" pats cur = cur := rfl

theorem tier4optPure_empty (cur : Option ℚ) (pats : List (List LTok)) :
    tier4optPure cur pats "" = cur := by
  unfold tier4optPure
  split_ifs <;> rfl

theorem fraisScan_empty : ∀ (labs : List String) (acc : ℚ × Bool),
    fraisScan labs "" acc = acc
  | [], _ => rfl
  | lab :: rest, acc => by
    rw [fraisScan, find_amount_empty]
    exact fraisScan_empty rest acc

theorem tier4fraisPure_empty (fe : ℚ) : tier4fraisPure fe "" = fe := by
  unfold tier4fraisPure
  rw [fraisScan_empty]
  split_ifs <;> simp_all

theorem textPure_empty (a : FState) : textPure a "" = a := by
  unfold textPure
  rw [tier4optPure_empty, tier4optPure_empty, tier4optPure_empty, tier4fraisPure_empty]

theorem fraisLoop_str : ∀ (labs : List String) (key v : String) (fe : ℚ),
    fraisLoop labs key (PVal.str v) fe =
      Except.ok (fe + (str_to_float (some v)).getD 0 *
        ((labs.filter (fun lab => isSubstrCI lab key)).length : ℚ))
  | [], key, v, fe => by
    simp [fraisLoop]
  | lab :: rest, key, v, fe => by
    rw [fraisLoop]
    by_cases hs : isSubstrCI lab key = true
    · rw [if_pos hs]
      show fraisLoop rest key (PVal.str v)
          (if truthyOpt (str_to_float (some v)) = true
           then fe + (str_to_float (some v)).getD 0 else fe) = _
      rw [fraisLoop_str rest, List.filter_cons, if_pos hs, List.length_cons]
      by_cases ht : truthyOpt (str_to_float (some v)) = true
      · rw [if_pos ht]
        congr 1
        push_cast
        ring
      · rw [if_neg ht, truthyOpt_getD_zero (by simpa using ht)]
        simp
    · rw [if_neg hs, fraisLoop_str rest, List.filter_cons, if_neg hs]

theorem itemsFraisSum_cons (k v : String) (rest : List (String × String)) :
    itemsFraisSum ((k, v) :: rest) =
      (str_to_float (some v)).getD 0 * (countFraisLabels k : ℚ) + itemsFraisSum rest := by
  simp [itemsFraisSum]

theorem processItems_mapStr : ∀ (entries : List (String × String)) (a : FState),
    ∃ d, processItems (mapStr entries) a =
      Except.ok { mi := a.mi, ci := a.ci, fe := a.fe + itemsFraisSum entries, df := d }
  | [], a => ⟨a.df, by simp [processItems, mapStr, itemsFraisSum]⟩
  | (k, v) :: rest, a => by
    rw [show mapStr ((k, v) :: rest) = (k, PVal.str v) :: mapStr rest from rfl]
    rw [itemsFraisSum_cons]
    by_cases hv : pyTruthy (PVal.str v) = true
    · have hstep : processItems ((k, PVal.str v) :: mapStr rest) a =
          (if substrB "DECOUCH".data (upperL k.data) ∧ substrB "F.PRO".data (upperL k.data)
           then processItems (mapStr rest)
             { mi := a.mi, ci := a.ci,
               fe := a.fe + (str_to_float (some v)).getD 0 * (countFraisLabels k : ℚ),
               df := if truthyOpt (str_to_float (some v)) = true
                     then str_to_float (some v) else a.df }
           else processItems (mapStr rest)
             { mi := a.mi, ci := a.ci,
               fe := a.fe + (str_to_float (some v)).getD 0 * (countFraisLabels k : ℚ),
               df := a.df }) := by
        rw [processItems, if_pos hv, fraisLoop_str]
        rfl
      rw [hstep]
      by_cases hd : substrB "DECOUCH".data (upperL k.data) ∧ substrB "F.PRO".data (upperL k.data)
      · rw [if_pos hd]
        obtain ⟨d, hrec⟩ := processItems_mapStr rest
          { mi := a.mi, ci := a.ci,
            fe := a.fe + (str_to_float (some v)).getD 0 * (countFraisLabels k : ℚ),
            df := if truthyOpt (str_to_float (some v)) = true
                  then str_to_float (some v) else a.df }
        refine ⟨d, hrec.trans ?_⟩
        congr 1
        simp only [FState.mk.injEq, true_and, and_true]
        ring
      · rw [if_neg hd]
        obtain ⟨d, hrec⟩ := processItems_mapStr rest
          { mi := a.mi, ci := a.ci,
            fe := a.fe + (str_to_float (some v)).getD 0 * (countFraisLabels k : ℚ),
            df := a.df }
        refine ⟨d, hrec.trans ?_⟩
        congr 1
        simp only [FState.mk.injEq, true_and, and_true]
        ring
    · have hstep : processItems ((k, PVal.str v) :: mapStr rest) a =
          processItems (mapStr rest) a := by
        rw [processItems, if_neg hv]
      rw [hstep]
      have hve : v = "" := by
        simpa [pyTruthy] using hv
      obtain ⟨d, hrec⟩ := processItems_mapStr rest a
      refine ⟨d, hrec.trans ?_⟩
      congr 1
      subst hve
      simp only [FState.mk.injEq, true_and, and_true]
      simp [str_to_float, parseClean]

theorem processItems_ok : ∀ (items : List (String × PVal)) (a : FState),
    (∀ kv ∈ items, pyTruthy kv.2 = true → isStrB kv.2 = true) →
    ∃ a2, processItems items a = Except.ok a2
  | [], a, _ => ⟨a, rfl⟩
  | (k, v) :: rest, a, h => by
    by_cases hv : pyTruthy v = true
    · have hstr : isStrB v = true := h (k, v) (by simp) hv
      have hrest : ∀ kv ∈ rest, pyTruthy kv.2 = true → isStrB kv.2 = true :=
        fun kv hkv => h kv (by simp [hkv])
      rcases v with _ | q | s | es
      · simp [isStrB] at hstr
      · simp [isStrB] at hstr
      · have hstep : processItems ((k, PVal.str s) :: rest) a =
            (if substrB "DECOUCH".data (upperL k.data) ∧ substrB "F.PRO".data (upperL k.data)
             then processItems rest
               { mi := a.mi, ci := a.ci,
                 fe := a.fe + (str_to_float (some s)).getD 0 * (countFraisLabels k : ℚ),
                 df := if truthyOpt (str_to_float (some s)) = true
                       then str_to_float (some s) else a.df }
             else processItems rest
               { mi := a.mi, ci := a.ci,
                 fe := a.fe + (str_to_float (some s)).getD 0 * (countFraisLabels k : ℚ),
                 df := a.df }) := by
          rw [processItems, if_pos hv, fraisLoop_str]
          rfl
        rw [hstep]
        by_cases hd : substrB "DECOUCH".data (upperL k.data) ∧
            substrB "F.PRO".data (upperL k.data)
        · rw [if_pos hd]
          exact processItems_ok rest _ hrest
        · rw [if_neg hd]
          exact processItems_ok rest _ hrest
      · simp [isStrB] at hstr
    · have hstep : processItems ((k, v) :: rest) a = processItems rest a := by
        rw [processItems, if_neg hv]
      rw [hstep]
      exact processItems_ok rest a (fun kv hkv => h kv (by simp [hkv]))

/-- Unfolding of `postprocess` on a structured value whose lines phase
succeeds and whose selected raw text is a string. -/
theorem postprocess_dict_ok (entries : List (String × PVal)) (a2 : FState) (raw : String)
    (h : linesPhase entries (directPhase entries) = Except.ok a2)
    (h2 : (if pyTruthy (rawTextInit entries) = true then rawTextInit entries
           else PVal.str "") = PVal.str raw) :
    postprocess (PVal.dict entries) =
      Except.ok (mkResult (textPure a2 raw) (rawTextInit entries)) := by
  show (match linesPhase entries (directPhase entries) with
        | Except.error e => Except.error e
        | Except.ok a2 =>
          match textPhase a2 (if pyTruthy (rawTextInit entries) = true
              then rawTextInit entries else PVal.str "") with
          | Except.error e => Except.error e
          | Except.ok a3 => Except.ok (mkResult a3 (rawTextInit entries))) = _
  rw [h, h2]
  show (match textPhase a2 (PVal.str raw) with
        | Except.error e => Except.error e
        | Except.ok a3 => Except.ok (mkResult a3 (rawTextInit entries))) = _
  rw [textPhase_str]

/-- Unfolding of `postprocess` on a non-dict value. -/
theorem postprocess_nondict (v : PVal) (hne : ∀ es, v ≠ PVal.dict es) :
    postprocess v =
      Except.ok (mkResult
        (textPure { mi := Option.none, ci := Option.none, fe := 0, df := Option.none }
          (pyStr v))
        (PVal.str (pyStr v))) := by
  have hgen : ∀ (w : PVal), (∀ es, w ≠ PVal.dict es) →
      postprocess w =
        (match textPhase { mi := Option.none, ci := Option.none, fe := 0, df := Option.none }
            (PVal.str (pyStr w)) with
        | Except.error e => Except.error e
        | Except.ok a3 => Except.ok (mkResult a3 (PVal.str (pyStr w)))) := by
    intro w hw
    cases w with
    | dict es => exact absurd rfl (hw es)
    | none => rfl
    | num q => rfl
    | str s => rfl
  rw [hgen v hne, textPhase_str]

/-- Claim C1 (corrected): `postprocess` returns the complete five-field
record without raising only for well-shaped inputs (truthy line-item
values that are strings, raw text that is a string); a line-item dict with
a truthy non-string value under a catalogued key makes the code raise
`AttributeError` inside `str_to_float`. -/
theorem C1_amended : ∀ p : PVal, shapeOKb p = true → ∃ r, postprocess p = Except.ok r := by
  intro p hp
  cases p with
  | dict entries =>
    simp only [shapeOKb, Bool.and_eq_true] at hp
    obtain ⟨h1, h2⟩ := hp
    have hl : ∃ a2, linesPhase entries (directPhase entries) = Except.ok a2 := by
      unfold linesPhase
      rcases hE : linesOf entries with _ | q | s | items
      · exact ⟨_, rfl⟩
      · exact ⟨_, rfl⟩
      · exact ⟨_, rfl⟩
      · rw [hE] at h1
        exact processItems_ok items (directPhase entries)
          (fun kv hkv htr => by
            have := List.all_eq_true.mp h1 kv hkv
            simpa [htr] using this)
    obtain ⟨a2, ha2⟩ := hl
    rcases hval : (if pyTruthy (rawTextInit entries) = true
        then rawTextInit entries else PVal.str "") with _ | q | raw | es
    · rw [hval] at h2
      simp [isStrB] at h2
    · rw [hval] at h2
      simp [isStrB] at h2
    · exact ⟨_, postprocess_dict_ok entries a2 raw ha2 hval⟩
    · rw [hval] at h2
      simp [isStrB] at h2
  | none => exact ⟨_, postprocess_nondict PVal.none (fun es h => PVal.noConfusion h)⟩
  | num q => exact ⟨_, postprocess_nondict (PVal.num q) (fun es h => PVal.noConfusion h)⟩
  | str s => exact ⟨_, postprocess_nondict (PVal.str s) (fun es h => PVal.noConfusion h)⟩

/-- Witness for C1: a well-shaped input on which the amended theorem
applies. -/
theorem C1_witness :
    shapeOKb (PVal.dict [("raw_text", PVal.str "some text")]) = true ∧
    ∃ r, postprocess (PVal.dict [("raw_text", PVal.str "some text")]) = Except.ok r :=
  ⟨by with_unfolding_all rfl, C1_amended _ (by with_unfolding_all rfl)⟩

/-- Counterexample to claim C1 as stated: on the input
`{"lines": {"IND.REPAS": 5}}` the Python code raises `AttributeError`
(`str_to_float` calls `.strip()` on the integer line-item value), so
`postprocess` does not return a record for every input whatsoever. -/
theorem C1_counterexample :
    postprocess (PVal.dict [("lines", PVal.dict [("IND.REPAS", PVal.num 5)])]) =
      Except.error "AttributeError" := by
  with_unfolding_all rfl

/-- Claim C2 (corrected): the tier-4 employment-expense fallback runs
whenever the running total is still zero, whether or not tier 3 produced
matches (a tier-3 match whose value normalizes to zero leaves the total
zero and the fallback runs anyway); when it runs, a value is written only
if at least one catalogued label produced a truthy scanner match. -/
theorem C2_amended : ∀ (a : FState) (raw : String),
    textPhase a (PVal.str raw) = Except.ok (textPure a raw) ∧
    (a.fe ≠ 0 → (textPure a raw).fe = a.fe) ∧
    (a.fe = 0 → (fraisScan fraisLabels raw (0, false)).2 = true →
      (textPure a raw).fe = round2 (fraisScan fraisLabels raw (0, false)).1) ∧
    (a.fe = 0 → (fraisScan fraisLabels raw (0, false)).2 = false →
      (textPure a raw).fe = a.fe) := by
  intro a raw
  refine ⟨textPhase_str a raw, ?_, ?_, ?_⟩
  · intro h
    show tier4fraisPure a.fe raw = a.fe
    unfold tier4fraisPure
    rw [if_neg h]
  · intro h0 hf
    show tier4fraisPure a.fe raw = _
    unfold tier4fraisPure
    rw [if_pos h0, if_pos hf]
  · intro h0 hf
    show tier4fraisPure a.fe raw = a.fe
    unfold tier4fraisPure
    rw [if_pos h0, if_neg (by simp [hf]), h0]

/-- Witness for C2: a nonzero total is kept unchanged by the free-text
tier even when the text carries catalogued labels. -/
theorem C2_witness :
    textPhase { mi := Option.none, ci := Option.none, fe := 5, df := Option.none }
        (PVal.str "IND.REPAS 7,00") =
      Except.ok (textPure { mi := Option.none, ci := Option.none, fe := 5, df := Option.none }
        "IND.REPAS 7,00") ∧
    (textPure { mi := Option.none, ci := Option.none, fe := 5, df := Option.none }
        "IND.REPAS 7,00").fe = 5 :=
  ⟨(C2_amended _ _).1, (C2_amended _ _).2.1 (by norm_num)⟩

/-- Counterexample to claim C2 as stated: the line item `IND.REPAS: "0,00"`
is a tier-3 match (its key contains the catalogued label and its value
normalizes to `0.0`), yet the tier-4 fallback still runs over the raw text
and writes `7.0`. -/
theorem C2_counterexample :
    isSubstrCI "IND.REPAS" "IND.REPAS" = true ∧
    str_to_float (some "0,00") = some 0 ∧
    postprocess (PVal.dict [("raw_text", PVal.str "INDEMNITE REPAS 7,00"),
        ("lines", PVal.dict [("IND.REPAS", PVal.str "0,00")])]) =
      Except.ok { montant_imposable := Option.none, cumul_imposable := Option.none,
                  frais_emploi := 7, decouchers_fpro := Option.none,
                  raw_text := PVal.str "INDEMNITE REPAS 7,00" } ∧
    (7 : ℚ) ≠ 0 :=
  ⟨by decide, by with_unfolding_all rfl, by with_unfolding_all rfl, by norm_num⟩

/-- Claim C4 (corrected): a value obtained by the direct field read
survives the later tiers only when it is truthy (nonzero); a direct read
of zero is treated as unresolved by the falsiness checks and the free-text
tier may then overwrite it.  A nonzero direct `montant_imposable` is never
replaced, and the specific 5000-versus-9999.99 scenario holds. -/
theorem C4_amended :
    (∀ (s raw : String) (v : ℚ), pyFloat (directClean s) = some v → v ≠ 0 →
      (postprocess (PVal.dict [("montant_imposable", PVal.str s),
          ("raw_text", PVal.str raw)])).toOption.map
        (fun r => r.montant_imposable) = some (some v)) ∧
    (postprocess (PVal.dict [("montant_imposable", PVal.str "5000,00"),
        ("raw_text", PVal.str "Montant imposable: 9999,99")])).toOption.map
      (fun r => r.montant_imposable) = some (some 5000) := by
  constructor
  · intro s raw v hv hnz
    have hs : s ≠ "" := by
      rintro rfl
      rw [show directClean "" = [] from rfl, show pyFloat [] = Option.none from rfl] at hv
      exact Option.noConfusion hv
    have hmi : directRead [("montant_imposable", PVal.str s), ("raw_text", PVal.str raw)]
        "montant_imposable" = some v := by
      have hred : directRead [("montant_imposable", PVal.str s), ("raw_text", PVal.str raw)]
          "montant_imposable" = if s = "" then Option.none else pyFloat (directClean s) := by
        with_unfolding_all rfl
      rw [hred, if_neg hs, hv]
    have hdir : directPhase [("montant_imposable", PVal.str s), ("raw_text", PVal.str raw)] =
        { mi := some v, ci := Option.none, fe := 0, df := Option.none } := by
      unfold directPhase
      rw [hmi]
      rw [show directRead [("montant_imposable", PVal.str s), ("raw_text", PVal.str raw)]
          "cumul_imposable" = Option.none from by with_unfolding_all rfl]
      rw [show directRead [("montant_imposable", PVal.str s), ("raw_text", PVal.str raw)]
          "frais_emploi" = Option.none from by with_unfolding_all rfl]
      rw [show directRead [("montant_imposable", PVal.str s), ("raw_text", PVal.str raw)]
          "decouchers_fpro" = Option.none from by with_unfolding_all rfl]
      rfl
    have hlines : linesPhase [("montant_imposable", PVal.str s), ("raw_text", PVal.str raw)]
        { mi := some v, ci := Option.none, fe := 0, df := Option.none } =
        Except.ok { mi := some v, ci := Option.none, fe := 0, df := Option.none } := by
      with_unfolding_all rfl
    have hrawinit : rawTextInit [("montant_imposable", PVal.str s), ("raw_text", PVal.str raw)] =
        PVal.str raw := by
      have hred : rawTextInit [("montant_imposable", PVal.str s), ("raw_text", PVal.str raw)] =
          if pyTruthy (PVal.str raw) = true then PVal.str raw else PVal.str "" := by
        with_unfolding_all rfl
      rw [hred]
      split_ifs with h
      · rfl
      · have he : raw = "" := by simpa [pyTruthy] using h
        rw [he]
    have hrawuse : (if pyTruthy (rawTextInit [("montant_imposable", PVal.str s),
          ("raw_text", PVal.str raw)]) = true
        then rawTextInit [("montant_imposable", PVal.str s), ("raw_text", PVal.str raw)]
        else PVal.str "") = PVal.str raw := by
      rw [hrawinit]
      split_ifs with h
      · rfl
      · have he : raw = "" := by simpa [pyTruthy] using h
        rw [he]
    have hpost : postprocess (PVal.dict [("montant_imposable", PVal.str s),
          ("raw_text", PVal.str raw)]) =
        Except.ok (mkResult
          (textPure { mi := some v, ci := Option.none, fe := 0, df := Option.none } raw)
          (rawTextInit [("montant_imposable", PVal.str s), ("raw_text", PVal.str raw)])) :=
      postprocess_dict_ok _ _ raw (by rw [hdir]; exact hlines) hrawuse
    rw [hpost]
    have hmi2 : tier4optPure (some v) montantPats raw = some v := by
      unfold tier4optPure
      rw [if_pos (by simp [truthyOpt, hnz])]
    simp [mkResult, textPure, hmi2, Except.toOption]
  · with_unfolding_all rfl

/-- Witness for C4: the general clause at a concrete truthy direct read. -/
theorem C4_witness :
    (postprocess (PVal.dict [("montant_imposable", PVal.str "5000,00"),
        ("raw_text", PVal.str "")])).toOption.map
      (fun r => r.montant_imposable) = some (some 5000) :=
  C4_amended.1 "5000,00" "" 5000 (by with_unfolding_all rfl) (by norm_num)

/-- Counterexample to claim C4 as stated: a structured document carrying
`montant_imposable: "0"` resolves the field at the direct tier to `0.0`,
yet the free-text tier replaces it (with `999.0`, since the amount grammar
caps the leading digit group at three digits of `9999,99`). -/
theorem C4_counterexample :
    pyFloat (directClean "0") = some 0 ∧
    postprocess (PVal.dict [("montant_imposable", PVal.str "0"),
        ("raw_text", PVal.str "Montant imposable: 9999,99")]) =
      Except.ok { montant_imposable := some 999, cumul_imposable := Option.none,
                  frais_emploi := 0, decouchers_fpro := Option.none,
                  raw_text := PVal.str "Montant imposable: 9999,99" } :=
  ⟨by with_unfolding_all rfl, by with_unfolding_all rfl⟩

/-- One line-item step on a truthy string value, as a reusable equation. -/
theorem processItems_cons_str (k v : String) (rest : List (String × PVal)) (a : FState)
    (hv : pyTruthy (PVal.str v) = true) :
    processItems ((k, PVal.str v) :: rest) a =
      (if substrB "DECOUCH".data (upperL k.data) ∧ substrB "F.PRO".data (upperL k.data)
       then processItems rest
         { mi := a.mi, ci := a.ci,
           fe := a.fe + (str_to_float (some v)).getD 0 * (countFraisLabels k : ℚ),
           df := if truthyOpt (str_to_float (some v)) = true
                 then str_to_float (some v) else a.df }
       else processItems rest
         { mi := a.mi, ci := a.ci,
           fe := a.fe + (str_to_float (some v)).getD 0 * (countFraisLabels k : ℚ),
           df := a.df }) := by
  rw [processItems, if_pos hv, fraisLoop_str]
  rfl

/-- Claim C5 (corrected): a line item whose key contains both the
overnight-stay and professional-expense tokens overwrites
`decouchers_fpro` whenever its value normalizes to a truthy number, even
when the field was already resolved by the direct read; only the free-text
tier is guarded by an already-resolved check. -/
theorem C5_amended : ∀ (s1 s2 : String) (v2 : ℚ),
    str_to_float (some s2) = some v2 → v2 ≠ 0 →
    (postprocess (PVal.dict [("raw_text", PVal.str ""), ("decouchers_fpro", PVal.str s1),
        ("lines", PVal.dict [("DECOUCHERS F.PRO", PVal.str s2)])])).toOption.map
      (fun r => r.decouchers_fpro) = some (some v2) := by
  intro s1 s2 v2 hv hnz
  have hs2 : s2 ≠ "" := by
    rintro rfl
    rw [show str_to_float (some "") = Option.none from rfl] at hv
    exact Option.noConfusion hv
  have hs2t : pyTruthy (PVal.str s2) = true := by
    simp [pyTruthy, hs2]
  have hv2t : truthyOpt (str_to_float (some s2)) = true := by
    rw [hv]
    simp [truthyOpt, hnz]
  have hstep : ∀ a : FState, processItems [("DECOUCHERS F.PRO", PVal.str s2)] a =
      Except.ok { mi := a.mi,
                  ci := a.ci,
                  fe := a.fe + (str_to_float (some s2)).getD 0 *
                    (countFraisLabels "DECOUCHERS F.PRO" : ℚ),
                  df := str_to_float (some s2) } := by
    intro a
    rw [processItems_cons_str _ _ _ _ hs2t, if_pos (by decide), if_pos hv2t]
    rfl
  have hE : linesOf [("raw_text", PVal.str ""), ("decouchers_fpro", PVal.str s1),
      ("lines", PVal.dict [("DECOUCHERS F.PRO", PVal.str s2)])] =
      PVal.dict [("DECOUCHERS F.PRO", PVal.str s2)] := by
    with_unfolding_all rfl
  have hlines : linesPhase [("raw_text", PVal.str ""), ("decouchers_fpro", PVal.str s1),
      ("lines", PVal.dict [("DECOUCHERS F.PRO", PVal.str s2)])]
      (directPhase [("raw_text", PVal.str ""), ("decouchers_fpro", PVal.str s1),
        ("lines", PVal.dict [("DECOUCHERS F.PRO", PVal.str s2)])]) =
      processItems [("DECOUCHERS F.PRO", PVal.str s2)]
      (directPhase [("raw_text", PVal.str ""), ("decouchers_fpro", PVal.str s1),
        ("lines", PVal.dict [("DECOUCHERS F.PRO", PVal.str s2)])]) := by
    simp only [linesPhase, hE]
  have hraws : (if pyTruthy (rawTextInit [("raw_text", PVal.str ""),
        ("decouchers_fpro", PVal.str s1),
        ("lines", PVal.dict [("DECOUCHERS F.PRO", PVal.str s2)])]) = true
      then rawTextInit [("raw_text", PVal.str ""), ("decouchers_fpro", PVal.str s1),
        ("lines", PVal.dict [("DECOUCHERS F.PRO", PVal.str s2)])]
      else PVal.str "") = PVal.str "" := by
    with_unfolding_all rfl
  have hpost := postprocess_dict_ok _ _ ""
    (hlines.trans (hstep (directPhase [("raw_text", PVal.str ""),
      ("decouchers_fpro", PVal.str s1),
      ("lines", PVal.dict [("DECOUCHERS F.PRO", PVal.str s2)])]))) hraws
  rw [hpost, textPure_empty]
  simp [mkResult, Except.toOption, hv]

/-- Witness for C5 at concrete direct and line-item values. -/
theorem C5_witness :
    (postprocess (PVal.dict [("raw_text", PVal.str ""),
        ("decouchers_fpro", PVal.str "5,00"),
        ("lines", PVal.dict [("DECOUCHERS F.PRO", PVal.str "7,00")])])).toOption.map
      (fun r => r.decouchers_fpro) = some (some 7) :=
  C5_amended "5,00" "7,00" 7 (by with_unfolding_all rfl) (by norm_num)

/-- Counterexample to claim C5 as stated: the direct read resolves
`decouchers_fpro` to `5.0`, and the matching line item still overwrites it
with `7.0` — there is no already-resolved guard at the line-item tier. -/
theorem C5_counterexample :
    directRead [("raw_text", PVal.str ""), ("decouchers_fpro", PVal.str "5,00"),
      ("lines", PVal.dict [("DECOUCHERS F.PRO", PVal.str "7,00")])]
      "decouchers_fpro" = some 5 ∧
    postprocess (PVal.dict [("raw_text", PVal.str ""), ("decouchers_fpro", PVal.str "5,00"),
        ("lines", PVal.dict [("DECOUCHERS F.PRO", PVal.str "7,00")])]) =
      Except.ok { montant_imposable := Option.none, cumul_imposable := Option.none,
                  frais_emploi := 0, decouchers_fpro := some 7,
                  raw_text := PVal.str "" } :=
  ⟨by with_unfolding_all rfl, by with_unfolding_all rfl⟩

/-- Claim C6 (corrected): with a nested line-items mapping, `frais_emploi`
is the sum over line items of the normalized value multiplied by the
number of catalogued labels the key contains — a key containing two
catalogued labels (such as `IND. TRANSPORT EXO`) is counted twice, not
once.  The concrete example of the claim, whose keys each contain exactly
one label, does resolve to `15.5`. -/
theorem C6_amended :
    (∀ entries : List (String × String), (entries.map Prod.fst).Nodup →
      (postprocess (PVal.dict [("raw_text", PVal.str ""),
          ("lines", PVal.dict (mapStr entries))])).toOption.map
        (fun r => r.frais_emploi) = some (itemsFraisSum entries)) ∧
    (postprocess (PVal.dict [("raw_text", PVal.str ""),
        ("lines", PVal.dict (mapStr [("IND.REPAS", "10,00"), ("IND. TRANSPORT", "5,50"),
          ("UNRELATED", "999")]))])).toOption.map
      (fun r => r.frais_emploi) = some (31 / 2) := by
  constructor
  · intro entries _
    cases entries with
    | nil => with_unfolding_all rfl
    | cons e rest =>
      have hdir : directPhase [("raw_text", PVal.str ""),
          ("lines", PVal.dict (mapStr (e :: rest)))] =
          { mi := Option.none, ci := Option.none, fe := 0, df := Option.none } := by
        with_unfolding_all rfl
      have hred : linesOf [("raw_text", PVal.str ""),
          ("lines", PVal.dict (mapStr (e :: rest)))] =
          if pyTruthy (PVal.dict (mapStr (e :: rest))) = true
          then PVal.dict (mapStr (e :: rest)) else PVal.none := by
        with_unfolding_all rfl
      have htr : pyTruthy (PVal.dict (mapStr (e :: rest))) = true := by
        simp [pyTruthy, mapStr]
      have hE : linesOf [("raw_text", PVal.str ""),
          ("lines", PVal.dict (mapStr (e :: rest)))] = PVal.dict (mapStr (e :: rest)) := by
        rw [hred, if_pos htr]
      have hlines : linesPhase [("raw_text", PVal.str ""),
          ("lines", PVal.dict (mapStr (e :: rest)))]
          { mi := Option.none, ci := Option.none, fe := 0, df := Option.none } =
          processItems (mapStr (e :: rest))
            { mi := Option.none, ci := Option.none, fe := 0, df := Option.none } := by
        simp only [linesPhase, hE]
      obtain ⟨d, hpi⟩ := processItems_mapStr (e :: rest)
        { mi := Option.none, ci := Option.none, fe := 0, df := Option.none }
      have hraws : (if pyTruthy (rawTextInit [("raw_text", PVal.str ""),
            ("lines", PVal.dict (mapStr (e :: rest)))]) = true
          then rawTextInit [("raw_text", PVal.str ""),
            ("lines", PVal.dict (mapStr (e :: rest)))]
          else PVal.str "") = PVal.str "" := by
        with_unfolding_all rfl
      have hok : linesPhase [("raw_text", PVal.str ""),
          ("lines", PVal.dict (mapStr (e :: rest)))]
          (directPhase [("raw_text", PVal.str ""),
            ("lines", PVal.dict (mapStr (e :: rest)))]) =
          Except.ok { mi := Option.none,
                      ci := Option.none,
                      fe := 0 + itemsFraisSum (e :: rest),
                      df := d } := by
        rw [hdir, hlines]
        exact hpi
      have hpost := postprocess_dict_ok _ _ "" hok hraws
      rw [hpost, textPure_empty]
      simp only [mkResult, Except.toOption]
      split_ifs with h
      · simpa using h.symm
      · simp
  · with_unfolding_all rfl

/-- Witness for C6: the general formula applied at the concrete line items
of the claim. -/
theorem C6_witness :
    (postprocess (PVal.dict [("raw_text", PVal.str ""),
        ("lines", PVal.dict (mapStr [("IND.REPAS", "10,00"), ("IND. TRANSPORT", "5,50"),
          ("UNRELATED", "999")]))])).toOption.map
      (fun r => r.frais_emploi) =
      some (itemsFraisSum [("IND.REPAS", "10,00"), ("IND. TRANSPORT", "5,50"),
        ("UNRELATED", "999")]) :=
  C6_amended.1 [("IND.REPAS", "10,00"), ("IND. TRANSPORT", "5,50"), ("UNRELATED", "999")]
    (by decide)

/-- Counterexample to claim C6 as stated: the key `IND. TRANSPORT EXO`
contains two catalogued labels (`IND. TRANSPORT` and `IND. TRANSPORT EXO`),
so its value `5.0` is added twice and `frais_emploi` resolves to `10.0`,
not to the once-per-item sum `5.0`. -/
theorem C6_counterexample :
    str_to_float (some "5,00") = some 5 ∧
    postprocess (PVal.dict [("raw_text", PVal.str ""),
        ("lines", PVal.dict [("IND. TRANSPORT EXO", PVal.str "5,00")])]) =
      Except.ok { montant_imposable := Option.none, cumul_imposable := Option.none,
                  frais_emploi := 10, decouchers_fpro := Option.none,
                  raw_text := PVal.str "" } :=
  ⟨by with_unfolding_all rfl, by with_unfolding_all rfl⟩

/-! ## Lemmas about the amount matcher (claim C7) -/

theorem mem_descRange {lo n k : ℕ} : k ∈ descRange lo n ↔ lo ≤ k ∧ k ≤ n := by
  unfold descRange
  rw [List.mem_reverse, List.mem_range'_1]
  omega

theorem takeDigits_sound {k : ℕ} {s d r : List Char} (h : takeDigits k s = some (d, r)) :
    s = d ++ r ∧ d.length = k ∧ ∀ c ∈ d, c.isDigit = true := by
  unfold takeDigits at h
  split_ifs at h with hc
  · rw [Option.some.injEq, Prod.mk.injEq] at h
    obtain ⟨hd, hr⟩ := h
    subst hd
    subst hr
    refine ⟨(List.take_append_drop k s).symm, ?_, ?_⟩
    · rw [List.length_take]
      omega
    · intro c hcm
      exact List.all_eq_true.mp hc.2 c hcm

theorem takeDigits_complete {d : List Char} (r : List Char)
    (h1 : ∀ c ∈ d, c.isDigit = true) :
    takeDigits d.length (d ++ r) = some (d, r) := by
  unfold takeDigits
  rw [List.take_left, List.drop_left]
  rw [if_pos ⟨by simp, List.all_eq_true.mpr h1⟩]

theorem starGroups_succ (f : ℕ) (s : List Char) :
    starGroups (f + 1) s = (match s with
      | c1 :: d1 :: d2 :: d3 :: rest =>
        if isSep c1 && d1.isDigit && d2.isDigit && d3.isDigit then
          (starGroups f rest).map (fun q => (c1 :: d1 :: d2 :: d3 :: q.1, q.2))
        else []
      | _ => []) ++ [([], s)] := by
  rcases s with _ | ⟨c1, _ | ⟨d1, _ | ⟨d2, _ | ⟨d3, rest⟩⟩⟩⟩ <;> rfl

theorem starGroups_sound : ∀ {f : ℕ} {s : List Char} {p : List Char × List Char},
    p ∈ starGroups f s → s = p.1 ++ p.2 ∧ GroupsFlat p.1
  | 0, s, p, h => by
    simp only [starGroups, List.mem_singleton] at h
    subst h
    exact ⟨rfl, GroupsFlat.nil⟩
  | f + 1, s, p, h => by
    rw [starGroups_succ, List.mem_append] at h
    rcases h with h1 | h1
    · rcases s with _ | ⟨c1, s1⟩
      · exact absurd (show p ∈ ([] : List (List Char × List Char)) from h1)
          (List.not_mem_nil p)
      rcases s1 with _ | ⟨d1, s2⟩
      · exact absurd (show p ∈ ([] : List (List Char × List Char)) from h1)
          (List.not_mem_nil p)
      rcases s2 with _ | ⟨d2, s3⟩
      · exact absurd (show p ∈ ([] : List (List Char × List Char)) from h1)
          (List.not_mem_nil p)
      rcases s3 with _ | ⟨d3, rest⟩
      · exact absurd (show p ∈ ([] : List (List Char × List Char)) from h1)
          (List.not_mem_nil p)
      have h2 : p ∈ (if (isSep c1 && d1.isDigit && d2.isDigit && d3.isDigit) = true then
          (starGroups f rest).map (fun q => (c1 :: d1 :: d2 :: d3 :: q.1, q.2))
        else ([] : List (List Char × List Char))) := h1
      clear h1
      split_ifs at h2 with hc
      · rw [List.mem_map] at h2
        obtain ⟨q, hq, hpe⟩ := h2
        obtain ⟨hs, hg⟩ := starGroups_sound hq
        subst hpe
        simp only [Bool.and_eq_true] at hc
        refine ⟨by simp [hs], ?_⟩
        exact GroupsFlat.grp c1 d1 d2 d3 q.1 hc.1.1.1 hc.1.1.2 hc.1.2 hc.2 hg
      · simp at h2
    · simp only [List.mem_singleton] at h1
      subst h1
      exact ⟨rfl, GroupsFlat.nil⟩

theorem starGroups_nil_mem (f : ℕ) (s : List Char) : ([], s) ∈ starGroups f s := by
  cases f with
  | zero => simp [starGroups]
  | succ f =>
    rw [starGroups_succ, List.mem_append]
    right
    simp

theorem decTail_sound {s : List Char} {p : List Char × List Char}
    (h : p ∈ decTail s) : s = p.1 ++ p.2 ∧ FracTail p.1 := by
  unfold decTail at h
  rw [List.mem_append] at h
  rcases h with h | h
  · rcases s with _ | ⟨c1, s1⟩
    · simp at h
    rcases s1 with _ | ⟨d1, s2⟩
    · simp at h
    rcases s2 with _ | ⟨d2, rest⟩
    · simp at h
    have h2 : p ∈ (if (isDec c1 && d1.isDigit && d2.isDigit) = true then
        [([c1, d1, d2], rest)] else ([] : List (List Char × List Char))) := h
    clear h
    split_ifs at h2 with hc
    · simp only [List.mem_singleton] at h2
      subst h2
      simp only [Bool.and_eq_true] at hc
      exact ⟨rfl, FracTail.frac c1 d1 d2 hc.1.1 hc.1.2 hc.2⟩
    · simp at h2
  · simp only [List.mem_singleton] at h
    subst h
    exact ⟨rfl, FracTail.nil⟩

theorem decTail_nil_mem (s : List Char) : ([], s) ∈ decTail s := by
  unfold decTail
  rw [List.mem_append]
  right
  simp

theorem amountMatches_sound {s : List Char} {p : List Char × List Char}
    (h : p ∈ amountMatches s) : s = p.1 ++ p.2 ∧ specAmount p.1 := by
  unfold amountMatches at h
  rw [List.mem_flatMap] at h
  obtain ⟨q, hq, hp⟩ := h
  rw [List.mem_flatMap] at hp
  obtain ⟨g, hg, hp2⟩ := hp
  rw [List.mem_map] at hp2
  obtain ⟨t, ht, hpe⟩ := hp2
  rw [List.mem_filterMap] at hq
  obtain ⟨k, hk, hkq⟩ := hq
  obtain ⟨hs1, hlen, hdig⟩ := takeDigits_sound hkq
  obtain ⟨hs2, hgf⟩ := starGroups_sound hg
  obtain ⟨hs3, hft⟩ := decTail_sound ht
  subst hpe
  have hk13 : 1 ≤ k ∧ k ≤ 3 := by
    simp only [List.mem_cons, List.not_mem_nil, or_false] at hk
    omega
  constructor
  · rw [hs1, hs2, hs3]
    simp [List.append_assoc]
  · exact ⟨q.1, g.1, t.1, rfl, by omega, by omega, hdig, hgf, hft⟩

theorem amountMatches_ne_nil {a : List Char} (r : List Char) (h : specAmount a) :
    amountMatches (a ++ r) ≠ [] := by
  obtain ⟨lead, g, t, heq, h1, h3, hd, hg, ht⟩ := h
  apply List.ne_nil_of_mem (a := (lead ++ [] ++ [], g ++ t ++ r))
  unfold amountMatches
  rw [List.mem_flatMap]
  refine ⟨(lead, g ++ t ++ r), ?_, ?_⟩
  · rw [List.mem_filterMap]
    refine ⟨lead.length, ?_, ?_⟩
    · simp only [List.mem_cons, List.not_mem_nil, or_false]
      omega
    · have heq2 : a ++ r = lead ++ (g ++ t ++ r) := by
        rw [heq]
        simp [List.append_assoc]
      rw [heq2]
      exact takeDigits_complete _ hd
  · rw [List.mem_flatMap]
    exact ⟨([], g ++ t ++ r), starGroups_nil_mem _ _,
      List.mem_map.mpr ⟨([], g ++ t ++ r), decTail_nil_mem _, rfl⟩⟩

theorem take_of_takeWhile {p : Char → Bool} {k : ℕ} {l : List Char}
    (hk : k ≤ (l.takeWhile p).length) : ∀ c ∈ l.take k, p c = true := by
  intro c hc
  have heq : l.take k = (l.takeWhile p).take k := by
    conv_lhs => rw [← List.takeWhile_append_dropWhile (p := p) (l := l)]
    rw [List.take_append_of_le_length hk]
  rw [heq] at hc
  have hc2 : c ∈ l.takeWhile p := List.take_subset _ _ hc
  exact List.all_eq_true.mp List.all_takeWhile c hc2

theorem gapThenAmount_sound {s : List Char} {p : List Char × List Char}
    (h : p ∈ gapThenAmount s) :
    ∃ gap, s = gap ++ p.1 ++ p.2 ∧ gapOKcode gap ∧ specAmount p.1 := by
  unfold gapThenAmount at h
  rw [List.mem_flatMap] at h
  obtain ⟨k, hk, hp⟩ := h
  rw [mem_descRange] at hk
  obtain ⟨ham, hspec⟩ := amountMatches_sound hp
  refine ⟨s.take k, ?_, ⟨?_, ?_⟩, hspec⟩
  · conv_lhs => rw [← List.take_append_drop k s]
    rw [ham, List.append_assoc]
  · rw [List.length_take]
    omega
  · exact take_of_takeWhile (by omega)

theorem gapThenAmount_ne_nil {gap amt : List Char} (r : List Char)
    (hg : gapOKcode gap) (ha : specAmount amt) :
    gapThenAmount (gap ++ (amt ++ r)) ≠ [] := by
  unfold gapThenAmount
  intro hnil
  rw [List.flatMap_eq_nil_iff] at hnil
  have hrun : gap.length ≤ ((gap ++ (amt ++ r)).takeWhile isGapChar).length := by
    rw [List.takeWhile_append_of_pos (fun c hc => hg.2 c hc)]
    simp
  have hmem : gap.length ∈
      descRange 0 (min 50 ((gap ++ (amt ++ r)).takeWhile isGapChar).length) := by
    rw [mem_descRange]
    have h50 := hg.1
    omega
  have hz := hnil gap.length hmem
  rw [List.drop_left] at hz
  exact amountMatches_ne_nil r ha hz

theorem headOptMem {α : Type} {l : List α} {a : α} (h : l.head? = some a) : a ∈ l := by
  cases l with
  | nil => exact Option.noConfusion h
  | cons x t =>
    rw [List.head?_cons, Option.some.injEq] at h
    rw [← h]
    exact List.mem_cons_self x t

theorem matchToks_lit_sound : ∀ {ds s r : List Char},
    r ∈ matchToks (litToks ds) s → ∃ lab, s = lab ++ r ∧ lowerL lab = lowerL ds
  | [], s, r, h => by
    have h2 : r ∈ [s] := h
    rw [List.mem_singleton] at h2
    exact ⟨[], by simp [h2], rfl⟩
  | d :: ds, s, r, h => by
    rcases s with _ | ⟨c1, s1⟩
    · exact absurd (show r ∈ ([] : List (List Char)) from h) (List.not_mem_nil r)
    · have h2 : r ∈ (if c1.toLower = d.toLower then matchToks (litToks ds) s1
          else ([] : List (List Char))) := h
      split_ifs at h2 with hc
      · obtain ⟨lab, hs, hl⟩ := matchToks_lit_sound h2
        refine ⟨c1 :: lab, by simp [hs], ?_⟩
        simp only [lowerL, List.map_cons] at hl ⊢
        rw [hc, hl]
      · exact absurd h2 (List.not_mem_nil r)

theorem matchToks_lit_complete : ∀ {ds lab : List Char} (r : List Char),
    lowerL lab = lowerL ds → r ∈ matchToks (litToks ds) (lab ++ r)
  | [], lab, r, h => by
    have hl : lab = [] := by
      have h2 := congrArg List.length h
      simpa [lowerL, List.length_eq_zero] using h2
    subst hl
    show r ∈ [r]
    simp
  | d :: ds, lab, r, h => by
    rcases lab with _ | ⟨c1, lab1⟩
    · exfalso
      have h2 := congrArg List.length h
      simp only [lowerL, List.length_map, List.length_nil, List.length_cons] at h2
      omega
    · simp only [lowerL, List.map_cons, List.cons.injEq] at h
      show r ∈ (if c1.toLower = d.toLower then matchToks (litToks ds) (lab1 ++ r)
          else ([] : List (List Char)))
      rw [if_pos h.1]
      exact matchToks_lit_complete r h.2

theorem tryAt_lit_sound {ds s a : List Char} (h : tryAt (litToks ds) s = some a) :
    ∃ lab gap rest, s = lab ++ gap ++ a ++ rest ∧ lowerL lab = lowerL ds ∧
      gapOKcode gap ∧ specAmount a := by
  unfold tryAt at h
  rcases hh : ((matchToks (litToks ds) s).flatMap gapThenAmount).head? with _ | p
  · rw [hh] at h
    exact Option.noConfusion h
  · rw [hh] at h
    have h3 : some p.1 = some a := h
    rw [Option.some.injEq] at h3
    have hpmem : p ∈ (matchToks (litToks ds) s).flatMap gapThenAmount := headOptMem hh
    rw [List.mem_flatMap] at hpmem
    obtain ⟨r, hr, hp⟩ := hpmem
    obtain ⟨lab, hs, hl⟩ := matchToks_lit_sound hr
    obtain ⟨gap, hr2, hg, ha⟩ := gapThenAmount_sound hp
    refine ⟨lab, gap, p.2, ?_, hl, hg, ?_⟩
    · rw [hs, hr2, ← h3]
      simp [List.append_assoc]
    · rw [← h3]
      exact ha

theorem tryAt_lit_complete {ds lab gap amt rest : List Char}
    (hl : lowerL lab = lowerL ds) (hg : gapOKcode gap) (ha : specAmount amt) :
    (tryAt (litToks ds) (lab ++ (gap ++ (amt ++ rest)))).isSome = true := by
  have h1 := matchToks_lit_complete (gap ++ (amt ++ rest)) hl
  have h2 : gapThenAmount (gap ++ (amt ++ rest)) ≠ [] := gapThenAmount_ne_nil rest hg ha
  have h3 : (matchToks (litToks ds) (lab ++ (gap ++ (amt ++ rest)))).flatMap
      gapThenAmount ≠ [] := by
    intro hnil
    rw [List.flatMap_eq_nil_iff] at hnil
    exact h2 (hnil _ h1)
  unfold tryAt
  rcases hL : (matchToks (litToks ds) (lab ++ (gap ++ (amt ++ rest)))).flatMap
      gapThenAmount with _ | ⟨p, tl⟩
  · exact absurd hL h3
  · simp

theorem tryAt_lit_nil (ds : List Char) : tryAt (litToks ds) [] = Option.none := by
  rcases h : tryAt (litToks ds) [] with _ | a
  · rfl
  · exfalso
    obtain ⟨lab, gap, rest, hs, hl, hg, ha⟩ := tryAt_lit_sound h
    obtain ⟨lead, g2, t2, haeq, h1len, _, _, _, _⟩ := ha
    have hlen := congrArg List.length hs
    simp [haeq] at hlen
    omega

theorem searchFrom_isSome_of_tryAt {pat : List LTok} {s : List Char}
    (h : (tryAt pat s).isSome = true) : (searchFrom pat s).isSome = true := by
  cases s with
  | nil =>
    rw [searchFrom]
    exact h
  | cons c t =>
    rw [searchFrom]
    rcases htry : tryAt pat (c :: t) with _ | a
    · rw [htry] at h
      simp at h
    · rfl

theorem searchFrom_isSome_cons {pat : List LTok} {c : Char} {t : List Char}
    (h : (searchFrom pat t).isSome = true) : (searchFrom pat (c :: t)).isSome = true := by
  rw [searchFrom]
  rcases htry : tryAt pat (c :: t) with _ | a
  · exact h
  · rfl

theorem searchFrom_lit_sound : ∀ {ds s a : List Char},
    searchFrom (litToks ds) s = some a →
    ∃ pre lab gap rest, s = pre ++ lab ++ gap ++ a ++ rest ∧ lowerL lab = lowerL ds ∧
      gapOKcode gap ∧ specAmount a
  | ds, [], a, h => by
    rw [searchFrom] at h
    obtain ⟨lab, gap, rest, hs, hl, hg, ha⟩ := tryAt_lit_sound h
    exact ⟨[], lab, gap, rest, by simpa using hs, hl, hg, ha⟩
  | ds, c :: t, a, h => by
    rw [searchFrom] at h
    rcases htry : tryAt (litToks ds) (c :: t) with _ | a0
    · rw [htry] at h
      obtain ⟨pre, lab, gap, rest, hs, hl, hg, ha⟩ := searchFrom_lit_sound h
      exact ⟨c :: pre, lab, gap, rest, by simp [hs], hl, hg, ha⟩
    · rw [htry] at h
      have h2 : some a0 = some a := h
      rw [Option.some.injEq] at h2
      subst h2
      obtain ⟨lab, gap, rest, hs, hl, hg, ha⟩ := tryAt_lit_sound htry
      exact ⟨[], lab, gap, rest, by simpa using hs, hl, hg, ha⟩

theorem searchFrom_lit_complete : ∀ (pre : List Char) {ds lab gap amt rest : List Char},
    lowerL lab = lowerL ds → gapOKcode gap → specAmount amt →
    (searchFrom (litToks ds) (pre ++ (lab ++ (gap ++ (amt ++ rest))))).isSome = true
  | [], ds, lab, gap, amt, rest, hl, hg, ha => by
    rw [List.nil_append]
    exact searchFrom_isSome_of_tryAt (tryAt_lit_complete hl hg ha)
  | c :: pre, ds, lab, gap, amt, rest, hl, hg, ha => by
    rw [List.cons_append]
    exact searchFrom_isSome_cons (searchFrom_lit_complete pre hl hg ha)

theorem find_amount_bind_searchFrom (t L : String) :
    find_amount_after_label t [labelLit L] =
      (searchFrom (labelLit L) t.data).bind
        (fun a => str_to_float (some (String.mk a))) := by
  unfold find_amount_after_label
  split_ifs with ht
  · subst ht
    rw [show ("" : String).data = ([] : List Char) from rfl]
    rw [searchFrom]
    have h2 : tryAt (labelLit L) [] = Option.none := tryAt_lit_nil L.data
    rw [h2]
    rfl
  · rw [faalGo]
    rcases hsf : searchFrom (labelLit L) t.data with _ | a
    · rfl
    · rfl

/-- **C7** (amended): over a literal label pattern,
`find_amount_after_label` returns `str_to_float` of the amount captured by
the leftmost-greedy regex match (so a matched but unparseable quantity
still ends the search with no value); a match exists exactly when some
occurrence of the label, matched case-insensitively, is followed by at
most 50 characters none of which is a digit, newline, carriage return, or
hyphen — the code's gap class also excludes the hyphen — and then
immediately by a quantity of the amount grammar; and every captured
quantity belongs to the amount grammar. -/
theorem C7_amended (t L : String) :
    find_amount_after_label t [labelLit L] =
      (searchFrom (labelLit L) t.data).bind
        (fun a => str_to_float (some (String.mk a))) ∧
    ((searchFrom (labelLit L) t.data).isSome = true ↔
      ∃ pre lab gap amt rest, t.data = pre ++ lab ++ gap ++ amt ++ rest ∧
        labLitMatches L lab ∧ gapOKcode gap ∧ specAmount amt) ∧
    ∀ a, searchFrom (labelLit L) t.data = some a → specAmount a := by
  refine ⟨find_amount_bind_searchFrom t L, ⟨?_, ?_⟩, ?_⟩
  · intro h
    rcases hsf : searchFrom (labelLit L) t.data with _ | a
    · rw [hsf] at h
      simp at h
    · have hsf2 : searchFrom (litToks L.data) t.data = some a := hsf
      obtain ⟨pre, lab, gap, rest, hs, hl, hg, ha⟩ := searchFrom_lit_sound hsf2
      exact ⟨pre, lab, gap, a, rest, hs, hl, hg, ha⟩
  · rintro ⟨pre, lab, gap, amt, rest, hs, hl, hg, ha⟩
    rw [hs]
    have hl2 : lowerL lab = lowerL L.data := hl
    have h2 : (searchFrom (litToks L.data)
        (pre ++ (lab ++ (gap ++ (amt ++ rest))))).isSome = true :=
      searchFrom_lit_complete pre hl2 hg ha
    rw [show pre ++ (lab ++ (gap ++ (amt ++ rest))) =
        pre ++ lab ++ gap ++ amt ++ rest by simp [List.append_assoc]] at h2
    exact h2
  · intro a hsf
    have hsf2 : searchFrom (litToks L.data) t.data = some a := hsf
    obtain ⟨_, _, _, _, _, _, _, ha⟩ := searchFrom_lit_sound hsf2
    exact ha

/-- Witness for C7: the bind form at the specification's own cumul
example, and a concrete captured quantity (`"12"` after label `"X"` in
`"X: 12"`) shown to belong to the amount grammar by the theorem. -/
theorem C7_witness :
    find_amount_after_label "Cumul imposable .... 12 345,67 EUR"
        [labelLit "Cumul imposable"] =
      (searchFrom (labelLit "Cumul imposable")
          ("Cumul imposable .... 12 345,67 EUR" : String).data).bind
        (fun a => str_to_float (some (String.mk a))) ∧
    specAmount ['1', '2'] :=
  ⟨(C7_amended "Cumul imposable .... 12 345,67 EUR" "Cumul imposable").1,
   (C7_amended "X: 12" "X").2.2 ['1', '2'] (by with_unfolding_all rfl)⟩

/-- Counterexample to claim C7 as stated: the claim's gap condition (no
digit, newline, or carriage return) admits the hyphen, but the code's
class `[^0-9\n\r\-]` rejects it.  In `"X - 5"` the label `"X"` is
followed by the three-character gap `" - "` — admissible per the claim —
and then the amount `"5"`, yet the scanner yields no value. -/
theorem C7_counterexample : ¬ C7ClaimStatement := by
  intro hcl
  have h := (hcl "X - 5" "X").mpr
    ⟨[], ['X'], [' ', '-', ' '], ['5'], [],
     by with_unfolding_all rfl,
     show lowerL ['X'] = lowerL ("X" : String).data by decide,
     ⟨by decide, by decide⟩,
     ⟨['5'], [], [], rfl, by decide, by decide, by decide,
      GroupsFlat.nil, FracTail.nil⟩⟩
  rw [show find_amount_after_label "X - 5" [labelLit "X"] = (Option.none : Option ℚ) from
    by with_unfolding_all rfl] at h
  simp at h

/-! ## Lemmas about decimal rendering and re-parsing (claim C9) -/

theorem digitChar_isDigit {n : ℕ} (h : n < 10) : (digitChar n).isDigit = true := by
  interval_cases n <;> decide

theorem digitChar_toNat {n : ℕ} (h : n < 10) : (digitChar n).toNat - 48 = n := by
  interval_cases n <;> decide

theorem digitsToNat_append_digit (l : List Char) (c : Char) :
    digitsToNat (l ++ [c]) = 10 * digitsToNat l + (c.toNat - 48) := by
  unfold digitsToNat
  rw [List.foldl_append]
  rfl

theorem natDigitsAux_spec : ∀ (f n : ℕ), n < f →
    (∀ c ∈ natDigitsAux f n, c.isDigit = true) ∧ natDigitsAux f n ≠ [] ∧
      digitsToNat (natDigitsAux f n) = n
  | 0, n, h => absurd h (Nat.not_lt_zero n)
  | f + 1, n, h => by
    rw [natDigitsAux]
    split_ifs with h10
    · refine ⟨?_, by simp, ?_⟩
      · intro c hc
        rw [List.mem_singleton] at hc
        subst hc
        exact digitChar_isDigit h10
      · show 10 * 0 + ((digitChar n).toNat - 48) = n
        rw [digitChar_toNat h10]
        omega
    · have hdiv : n / 10 < f := by
        have h1 := Nat.div_lt_self (show 0 < n by omega) (show 1 < 10 by norm_num)
        omega
      obtain ⟨hd, hne, hval⟩ := natDigitsAux_spec f (n / 10) hdiv
      refine ⟨?_, by simp, ?_⟩
      · intro c hc
        rw [List.mem_append] at hc
        rcases hc with hc | hc
        · exact hd c hc
        · rw [List.mem_singleton] at hc
          subst hc
          exact digitChar_isDigit (Nat.mod_lt n (by norm_num))
      · rw [digitsToNat_append_digit, hval, digitChar_toNat (Nat.mod_lt n (by norm_num))]
        omega

theorem natDigits_spec (n : ℕ) :
    (∀ c ∈ natDigits n, c.isDigit = true) ∧ natDigits n ≠ [] ∧
      digitsToNat (natDigits n) = n :=
  natDigitsAux_spec (n + 1) n (Nat.lt_succ_self n)

theorem natDigitsAux_length : ∀ (f n k : ℕ), n < f → 1 ≤ k → n < 10 ^ k →
    (natDigitsAux f n).length ≤ k
  | 0, n, _, h, _, _ => absurd h (Nat.not_lt_zero n)
  | f + 1, n, k, h, hk, hnk => by
    rw [natDigitsAux]
    split_ifs with h10
    · simpa using hk
    · have hk2 : 2 ≤ k := by
        by_contra hco
        have hk1 : k = 1 := by omega
        subst hk1
        rw [pow_one] at hnk
        omega
      have hdiv : n / 10 < f := by
        have h1 := Nat.div_lt_self (show 0 < n by omega) (show 1 < 10 by norm_num)
        omega
      have hub : n / 10 < 10 ^ (k - 1) := by
        refine (Nat.div_lt_iff_lt_mul (by norm_num)).mpr ?_
        have hpow : 10 ^ (k - 1) * 10 = 10 ^ k := by
          rw [← pow_succ]
          congr 1
          omega
        rw [hpow]
        exact hnk
      have hlen := natDigitsAux_length f (n / 10) (k - 1) hdiv (by omega) hub
      rw [List.length_append]
      simp only [List.length_singleton]
      omega

theorem natDigits_length {n k : ℕ} (hk : 1 ≤ k) (hnk : n < 10 ^ k) :
    (natDigits n).length ≤ k :=
  natDigitsAux_length (n + 1) n k (Nat.lt_succ_self n) hk hnk

theorem digitsToNat_replicate_zero : ∀ (m : ℕ) (ds : List Char),
    digitsToNat (List.replicate m '0' ++ ds) = digitsToNat ds
  | 0, _ => rfl
  | m + 1, ds => digitsToNat_replicate_zero m ds

theorem dvd_ten_pow_self : ∀ (d : ℕ), (∃ m, d ∣ 10 ^ m) → d ∣ 10 ^ d := by
  intro d
  induction d using Nat.strong_induction_on with
  | _ d ih =>
    intro h
    obtain ⟨m, hm⟩ := h
    rcases Nat.lt_or_ge d 2 with hd2 | hd2
    · interval_cases d
      · exact absurd (Nat.eq_zero_of_zero_dvd hm) (by positivity : (0:ℕ) < 10 ^ m).ne'
      · simp
    · have hne1 : d ≠ 1 := by omega
      have hp := Nat.minFac_prime hne1
      have hpd := Nat.minFac_dvd d
      have h25 : (10 : ℕ) ^ m = 2 ^ m * 5 ^ m := by
        rw [← Nat.mul_pow]
      have hp25 : d.minFac = 2 ∨ d.minFac = 5 := by
        have h1 : d.minFac ∣ 2 ^ m * 5 ^ m := by
          rw [← h25]
          exact hpd.trans hm
        rcases (Nat.Prime.dvd_mul hp).mp h1 with h2 | h2
        · exact Or.inl ((Nat.prime_dvd_prime_iff_eq hp (by norm_num)).mp
            (hp.dvd_of_dvd_pow h2))
        · exact Or.inr ((Nat.prime_dvd_prime_iff_eq hp (by norm_num)).mp
            (hp.dvd_of_dvd_pow h2))
      obtain ⟨d2, hd⟩ := hpd
      have hd2pos : 0 < d2 := by
        rcases Nat.eq_zero_or_pos d2 with hz | hz
        · subst hz
          rw [Nat.mul_zero] at hd
          omega
        · exact hz
      have hmf2 : 2 ≤ d.minFac := hp.two_le
      have hd2lt : d2 < d := by
        have h2d : 2 * d2 ≤ d.minFac * d2 := Nat.mul_le_mul_right d2 hmf2
        omega
      have hd2dvd : d2 ∣ 10 ^ m :=
        dvd_trans ⟨d.minFac, by rw [Nat.mul_comm]; exact hd⟩ hm
      have ih2 := ih d2 hd2lt ⟨m, hd2dvd⟩
      have hmf10 : d.minFac ∣ 10 := by
        rcases hp25 with h2 | h2 <;> rw [h2] <;> norm_num
      have hstep : d ∣ 10 ^ (d2 + 1) := by
        have h3 : d.minFac * d2 ∣ 10 * 10 ^ d2 := mul_dvd_mul hmf10 ih2
        rw [← hd] at h3
        have hpow : 10 * 10 ^ d2 = 10 ^ (d2 + 1) := by
          rw [pow_succ]
          ring
        rw [hpow] at h3
        exact h3
      exact dvd_trans hstep (pow_dvd_pow 10 (by omega))

theorem decExp_dvd {d : ℕ} (hd : 0 < d) (h : ∃ m, d ∣ 10 ^ m) : d ∣ 10 ^ decExp d := by
  have hdd := dvd_ten_pow_self d h
  unfold decExp
  rcases hf : (List.range (d + 1)).find? (fun k => 10 ^ k % d == 0) with _ | k
  · exfalso
    have h2 := List.find?_eq_none.mp hf d (by rw [List.mem_range]; omega)
    apply h2
    simp only [beq_iff_eq]
    exact Nat.dvd_iff_mod_eq_zero.mp hdd
  · have hk := List.find?_some hf
    simp only [beq_iff_eq] at hk
    exact Nat.dvd_iff_mod_eq_zero.mpr hk

theorem den_dvd_of_eq_div (v : ℚ) (n k : ℕ) (hv : v = (n : ℚ) / 10 ^ k) :
    v.den ∣ 10 ^ k := by
  have h2 : v = Rat.divInt (n : ℤ) ((10 : ℤ) ^ k) := by
    rw [Rat.divInt_eq_div, hv]
    push_cast
    ring
  have h3 := Rat.den_dvd (n : ℤ) ((10 : ℤ) ^ k)
  rw [← h2] at h3
  have h4 : ((10 : ℤ) ^ k) = ((10 ^ k : ℕ) : ℤ) := by push_cast; ring
  rw [h4] at h3
  exact_mod_cast h3

theorem parseClean_den_dvd {l : List Char} {v : ℚ} (h : parseClean l = some v) :
    ∃ m, v.den ∣ 10 ^ m := by
  unfold parseClean at h
  split_ifs at h
  · rw [Option.some.injEq] at h
    subst h
    exact ⟨0, by rw [Rat.den_natCast, pow_zero]⟩
  · rw [Option.some.injEq] at h
    subst h
    refine ⟨((l.dropWhile (fun c => c ≠ '.')).tail).length,
      den_dvd_of_eq_div _
        (digitsToNat (l.takeWhile (fun c => c ≠ '.')) *
            10 ^ ((l.dropWhile (fun c => c ≠ '.')).tail).length +
          digitsToNat ((l.dropWhile (fun c => c ≠ '.')).tail))
        ((l.dropWhile (fun c => c ≠ '.')).tail).length ?_⟩
    push_cast
    field_simp

theorem str_to_float_den_dvd {s : String} {v : ℚ} (h : str_to_float (some s) = some v) :
    ∃ m, v.den ∣ 10 ^ m :=
  parseClean_den_dvd h

theorem renderDec_eq (v : ℚ) :
    renderDec v =
      (if decExp v.den = 0 then
        String.mk (natDigits (v.num.toNat * 10 ^ decExp v.den / v.den))
      else
        String.mk (natDigits ((v.num.toNat * 10 ^ decExp v.den / v.den) /
            10 ^ decExp v.den) ++
          '.' :: (List.replicate (decExp v.den -
              (natDigits ((v.num.toNat * 10 ^ decExp v.den / v.den) %
                10 ^ decExp v.den)).length) '0' ++
            natDigits ((v.num.toNat * 10 ^ decExp v.den / v.den) %
              10 ^ decExp v.den)))) := rfl

theorem renderDec_roundtrip {v : ℚ} (h0 : 0 ≤ v) (hdv : ∃ m, v.den ∣ 10 ^ m) :
    str_to_float (some (renderDec v)) = some v := by
  have hk := decExp_dvd v.pos hdv
  have hnum : (0 : ℤ) ≤ v.num := Rat.num_nonneg.mpr h0
  have htn : ((v.num.toNat : ℕ) : ℚ) = (v.num : ℚ) := by
    exact_mod_cast Int.toNat_of_nonneg hnum
  have hdq : ((v.den : ℕ) : ℚ) ≠ 0 := Nat.cast_ne_zero.mpr v.den_ne_zero
  have hNd : (v.num.toNat * 10 ^ decExp v.den / v.den) * v.den =
      v.num.toNat * 10 ^ decExp v.den :=
    Nat.div_mul_cancel (Dvd.dvd.mul_left hk _)
  rw [renderDec_eq]
  split_ifs with hk0
  · rw [hk0] at hNd hk
    rw [hk0]
    have hd1 : v.den = 1 := Nat.eq_one_of_dvd_one (by simpa using hk)
    show parseClean ((String.mk _).data.filterMap cleanChar) = some v
    rw [show (String.mk (natDigits (v.num.toNat * 10 ^ 0 / v.den))).data =
      natDigits (v.num.toNat * 10 ^ 0 / v.den) from rfl]
    rw [filterMap_clean_digits (natDigits_spec _).1]
    rw [parseClean_int (natDigits_spec _).1 (natDigits_spec _).2.1]
    rw [(natDigits_spec _).2.2]
    rw [hd1, pow_zero, Nat.mul_one, Nat.div_one]
    rw [Option.some.injEq, htn]
    conv_rhs => rw [← Rat.num_div_den v]
    rw [hd1]
    push_cast
    rw [div_one]
  · -- decimal case
    have hk1 : 1 ≤ decExp v.den := by omega
    have hpow : (0 : ℕ) < 10 ^ decExp v.den := by positivity
    have hmlt : (v.num.toNat * 10 ^ decExp v.den / v.den) % 10 ^ decExp v.den <
        10 ^ decExp v.den := Nat.mod_lt _ hpow
    have hble : (natDigits ((v.num.toNat * 10 ^ decExp v.den / v.den) %
        10 ^ decExp v.den)).length ≤ decExp v.den := natDigits_length hk1 hmlt
    have hBdig : ∀ c ∈ List.replicate (decExp v.den -
        (natDigits ((v.num.toNat * 10 ^ decExp v.den / v.den) %
          10 ^ decExp v.den)).length) '0' ++
        natDigits ((v.num.toNat * 10 ^ decExp v.den / v.den) % 10 ^ decExp v.den),
        c.isDigit = true := by
      intro c hc
      rw [List.mem_append] at hc
      rcases hc with hc | hc
      · rw [List.eq_of_mem_replicate hc]
        decide
      · exact (natDigits_spec _).1 c hc
    show parseClean ((String.mk _).data.filterMap cleanChar) = some v
    rw [show (String.mk (natDigits ((v.num.toNat * 10 ^ decExp v.den / v.den) /
        10 ^ decExp v.den) ++ '.' :: (List.replicate (decExp v.den -
          (natDigits ((v.num.toNat * 10 ^ decExp v.den / v.den) %
            10 ^ decExp v.den)).length) '0' ++
          natDigits ((v.num.toNat * 10 ^ decExp v.den / v.den) %
            10 ^ decExp v.den)))).data =
      natDigits ((v.num.toNat * 10 ^ decExp v.den / v.den) / 10 ^ decExp v.den) ++
        '.' :: (List.replicate (decExp v.den -
          (natDigits ((v.num.toNat * 10 ^ decExp v.den / v.den) %
            10 ^ decExp v.den)).length) '0' ++
          natDigits ((v.num.toNat * 10 ^ decExp v.den / v.den) %
            10 ^ decExp v.den)) from rfl]
    rw [List.filterMap_append, filterMap_clean_digits (natDigits_spec _).1]
    rw [List.filterMap_cons_some (show cleanChar '.' = some '.' by decide)]
    rw [filterMap_clean_digits hBdig]
    rw [parseClean_dec (natDigits_spec _).1 hBdig (natDigits_spec _).2.1]
    rw [(natDigits_spec _).2.2, digitsToNat_replicate_zero, (natDigits_spec _).2.2]
    rw [List.length_append, List.length_replicate]
    rw [show decExp v.den - (natDigits ((v.num.toNat * 10 ^ decExp v.den / v.den) %
        10 ^ decExp v.den)).length +
        (natDigits ((v.num.toNat * 10 ^ decExp v.den / v.den) %
          10 ^ decExp v.den)).length = decExp v.den by omega]
    rw [Option.some.injEq]
    have hq10 : ((10 : ℚ) ^ decExp v.den) ≠ 0 := by positivity
    have hNsplit : (v.num.toNat * 10 ^ decExp v.den / v.den / 10 ^ decExp v.den) *
          10 ^ decExp v.den +
        v.num.toNat * 10 ^ decExp v.den / v.den % 10 ^ decExp v.den =
        v.num.toNat * 10 ^ decExp v.den / v.den := by
      rw [Nat.mul_comm]
      exact Nat.div_add_mod _ _
    have hL : ((v.num.toNat * 10 ^ decExp v.den / v.den / 10 ^ decExp v.den : ℕ) : ℚ) +
        ((v.num.toNat * 10 ^ decExp v.den / v.den % 10 ^ decExp v.den : ℕ) : ℚ) /
          (10 : ℚ) ^ decExp v.den =
        ((v.num.toNat * 10 ^ decExp v.den / v.den : ℕ) : ℚ) /
          (10 : ℚ) ^ decExp v.den := by
      rw [eq_div_iff hq10, add_mul, div_mul_cancel₀ _ hq10]
      exact_mod_cast hNsplit
    rw [hL]
    conv_rhs => rw [← Rat.num_div_den v]
    rw [div_eq_div_iff hq10 hdq]
    rw [← htn]
    exact_mod_cast hNd

/-- **C9**: `str_to_float` is idempotent through the textual form: whenever
it yields a value `v` for a string, re-parsing the decimal rendering of `v`
yields `v` again.  The repository never turns a number back into text, so
the "textual rendering" is modelled from the spec's words as the plain
decimal string `renderDec v`. -/
theorem C9_thm (s : String) (v : ℚ) (h : str_to_float (some s) = some v) :
    str_to_float (some (renderDec v)) = some v :=
  renderDec_roundtrip (str_to_float_nonneg h) (str_to_float_den_dvd h)

/-- Witness for C9 at `"1 234,56"`, which parses to `1234.56`. -/
theorem C9_witness :
    str_to_float (some "1 234,56") = some (123456 / 100) ∧
    str_to_float (some (renderDec (123456 / 100))) = some (123456 / 100) :=
  ⟨by with_unfolding_all rfl,
   C9_thm "1 234,56" (123456 / 100) (by with_unfolding_all rfl)⟩

end Flytax
